import Mathlib

/-!
Verification of the resumable batch extraction pipeline of the Mercaz Daf Yomi
transcript repository (`enhanced_youtube_extractor.py`), via a shallow embedding
of its data model and operations.

Modelling conventions:
* Python dicts holding fixed keys become structures; JSON lists stay `List`.
* The remote services (YouTube data API, transcript API) are capability
  boundaries: they are modelled as oracles passed in as plain functions
  (`ItemEnv`), exactly as the spec treats them (external collaborators).
* Machine effects (metadata fetches, extraction attempts, sleeps, progress
  saves) are recorded in an explicit event trace `List Ev`, so frame and
  rate-limit properties can be stated.
* Fallible steps (`save_transcript`, per-attempt transcript fetches, the
  progress-file read) are modelled with `Except`/dedicated sum types.
* Fields of the source that no claim can observe (view counts, thumbnail
  URLs, word counts, timestamps inside records, log lines) are omitted; a
  comment at each definition notes the omissions.
-/

/-- One timed transcript entry, as returned by `transcript.fetch()` in
`extract_transcript` (Python dict with keys `text`, `start`, `duration`;
the numeric fields are irrelevant to every claim and kept only for shape). -/
structure Entry where
  text : String
  start : Nat
  duration : Nat
  deriving Repr, DecidableEq

/-- Python `str.strip()` on the default whitespace set, modelled on the
character list of a string (ASCII whitespace; the transcripts handled by the
code are plain text). -/
def isSpaceChar (c : Char) : Bool :=
  c = ' ' || c = '\t' || c = '\n' || c = '\r'

def pyStrip (s : String) : String :=
  ⟨((s.data.dropWhile isSpaceChar).reverse.dropWhile isSpaceChar).reverse⟩

/-- The flattening loop of `extract_transcript` (lines 375-379): concatenate
`entry['text'] + " "` over all entries, then strip. -/
def flattenEntries (es : List Entry) : String :=
  pyStrip (es.foldl (fun acc e => acc ++ e.text ++ " ") "")

/-- The slice of the `result` metadata dict of `extract_transcript` that the
batch loop observes (`success`, `error`).  The remaining keys
(`transcript_type`, `language`, `word_count`, `duration_covered`) are filled
in by the same branches but never read by any claim. -/
structure ExtractMeta where
  success : Bool
  error : Option String
  deriving Repr, DecidableEq

/-- One call of `MercazDafYomiExtractor.extract_transcript` (lines 322-391).
The remote side is summarised by its observable outcome: `Except.error msg`
covers every path that sets `result['error']` before any data is fetched
(exceptions from the transcript API, "No transcripts available"), and
`Except.ok es` is a successful `transcript.fetch()` returning `es`.
Following line 370, a falsy (empty) fetch result yields the
"Empty transcript data" error; otherwise `success` is set to `True`
regardless of whether the flattened text is empty (lines 379-386). -/
def extract_transcript (fo : Except String (List Entry)) :
    Option String × Option (List Entry) × ExtractMeta :=
  match fo with
  | .error e => (none, none, ⟨false, some e⟩)
  | .ok [] => (none, none, ⟨false, some "Empty transcript data"⟩)
  | .ok es => (some (flattenEntries es), some es, ⟨true, none⟩)

/-! ## Duration parser (`parse_duration`, lines 306-320)

The Python code applies `re.match` with pattern
`PT(?:(\d+)H)?(?:(\d+)M)?(?:(\d+)S)?` and returns
`hours*3600 + minutes*60 + seconds` with absent groups counting as zero,
and `0` when the match fails (i.e. when the string does not start with
`PT`).  Since the unit letters are not digits, the greedy `(\d+)U` groups
match exactly when the text at the current position carries one or more
digits immediately followed by the unit letter — backtracking inside a
group can never succeed where maximal munch fails — so the regex is
faithfully rendered by the structural parser below. -/

/-- Maximal prefix of decimal digits (`\d+` munch) and the rest. -/
def munchDigits : List Char → List Char × List Char
  | [] => ([], [])
  | c :: cs =>
    if c.isDigit then
      let r := munchDigits cs
      (c :: r.1, r.2)
    else ([], c :: cs)

/-- Numeric value of a decimal digit string, as Python `int` reads it. -/
def digitsVal (ds : List Char) : Nat :=
  ds.foldl (fun a c => 10 * a + (c.toNat - '0'.toNat)) 0

/-- One optional `(?:(\d+)U)?` group: at least one digit followed by the
unit letter `u`, else no match (position unchanged by the caller). -/
def tryUnit (u : Char) (cs : List Char) : Option (Nat × List Char) :=
  match munchDigits cs with
  | ([], _) => none
  | (ds, rest) =>
    match rest with
    | r :: rest2 => if r = u then some (digitsVal ds, rest2) else none
    | [] => none

/-- The value-or-default step for one regex group: `int(match.group(i) or 0)`
with the position advanced past the group when it matched. -/
def stepUnit (u : Char) (cs : List Char) : Nat × List Char :=
  match tryUnit u cs with
  | some r => r
  | none => (0, cs)

/-- `MercazDafYomiExtractor.parse_duration`: ISO-8601-style compact duration
to whole seconds; total over all strings, `0` on no match. -/
def parse_duration (s : String) : Nat :=
  match s.data with
  | 'P' :: 'T' :: cs =>
    let h := stepUnit 'H' cs
    let m := stepUnit 'M' h.2
    let sec := stepUnit 'S' m.2
    h.1 * 3600 + m.1 * 60 + sec.1
  | _ => 0

/-- Decimal digit character of `d < 10` (explicit table to keep every proof
by plain case analysis). -/
def digitChar : Nat → Char
  | 0 => '0' | 1 => '1' | 2 => '2' | 3 => '3' | 4 => '4'
  | 5 => '5' | 6 => '6' | 7 => '7' | 8 => '8' | _ => '9'

/-- Digit characters of a digit list (most significant first). -/
def digitChars (ds : List Nat) : List Char := ds.map digitChar

/-- Value denoted by a digit list read in base ten, most significant first. -/
def valBE (ds : List Nat) : Nat := ds.foldl (fun a d => 10 * a + d) 0

/-- Rendering of one optional component of a recognized duration token:
its digits followed by the unit letter, or nothing when absent. -/
def compOf (u : Char) : Option (List Nat) → List Char
  | none => []
  | some ds => digitChars ds ++ [u]

/-- A token of the recognized compact form: designator `PT`, then optional
hours, minutes, seconds components (any subset present). -/
def durToken (h m s : Option (List Nat)) : String :=
  ⟨'P' :: 'T' :: (compOf 'H' h ++ (compOf 'M' m ++ compOf 'S' s))⟩

/-- Value of an optional component (absent counts as zero). -/
def compVal : Option (List Nat) → Nat
  | none => 0
  | some ds => valBE ds

/-- Well-formed component: absent, or a nonempty list of decimal digits. -/
def GoodComp : Option (List Nat) → Prop
  | none => True
  | some ds => ds ≠ [] ∧ ∀ d ∈ ds, d < 10

instance : DecidablePred GoodComp := by
  intro o
  cases o with
  | none => exact isTrue trivial
  | some ds => exact inferInstanceAs (Decidable (ds ≠ [] ∧ ∀ d ∈ ds, d < 10))

/-- A string carrying no recognizable unit: it either lacks the `PT`
designator, or none of the three unit groups matches right after `PT`. -/
def noUnit (s : String) : Bool :=
  match s.data with
  | 'P' :: 'T' :: cs =>
    (tryUnit 'H' cs).isNone && (tryUnit 'M' cs).isNone && (tryUnit 'S' cs).isNone
  | _ => true

/-! ## Classifier (`classify_video`, lines 235-263) -/

/-- Python lower-casing for the ASCII range used by the pattern tables. -/
def lowerChar (c : Char) : Char :=
  if 'A' ≤ c ∧ c ≤ 'Z' then Char.ofNat (c.toNat + 32) else c

def lowerStr (s : String) : String := ⟨s.data.map lowerChar⟩

/-- Python substring containment (`needle in hay`) on character lists. -/
def containsSub (hay needle : List Char) : Bool :=
  match hay with
  | [] => needle.isEmpty
  | _ :: t => needle.isPrefixOf hay || containsSub t needle

def strContains (hay needle : String) : Bool := containsSub hay.data needle.data

/-- The `tractate_patterns` table of the default configuration (lines 58-99),
in declared order; Python dicts preserve insertion order. -/
def tractate_patterns : List (String × List String) :=
  [("Berachos", ["berachos", "berakhot"]),
   ("Shabbos", ["shabbos", "shabbat"]),
   ("Eruvin", ["eruvin"]),
   ("Pesachim", ["pesachim"]),
   ("Shekalim", ["shekalim"]),
   ("Yoma", ["yoma"]),
   ("Sukkah", ["sukkah"]),
   ("Beitzah", ["beitzah", "beitza"]),
   ("Rosh_Hashanah", ["rosh hashanah", "rosh_hashanah"]),
   ("Taanis", ["taanis", "taanit"]),
   ("Megillah", ["megillah"]),
   ("Moed_Katan", ["moed katan", "moed_katan"]),
   ("Chagigah", ["chagigah"]),
   ("Yevamos", ["yevamos", "yevamot"]),
   ("Kesubos", ["kesubos", "ketubbot"]),
   ("Nedarim", ["nedarim"]),
   ("Nazir", ["nazir"]),
   ("Sotah", ["sotah"]),
   ("Gittin", ["gittin"]),
   ("Kiddushin", ["kiddushin"]),
   ("Bava_Kamma", ["bava kamma", "bava_kamma"]),
   ("Bava_Metzia", ["bava metzia", "bava_metzia"]),
   ("Bava_Basra", ["bava basra", "bava_basra"]),
   ("Sanhedrin", ["sanhedrin"]),
   ("Makkos", ["makkos", "makkot"]),
   ("Shevuos", ["shevuos", "shevuot"]),
   ("Avodah_Zarah", ["avodah zarah", "avodah_zarah"]),
   ("Horayos", ["horayos", "horayot"]),
   ("Zevachim", ["zevachim"]),
   ("Menachos", ["menachos", "menachot"]),
   ("Chullin", ["chullin"]),
   ("Bechorot", ["bechorot", "bechoros"]),
   ("Arachin", ["arachin"]),
   ("Temurah", ["temurah"]),
   ("Kerisos", ["kerisos", "keritot"]),
   ("Meilah", ["meilah"]),
   ("Kinnim", ["kinnim"]),
   ("Tamid", ["tamid"]),
   ("Midos", ["midos", "midot"]),
   ("Niddah", ["niddah"])]

/-- Series-type selection nested inside the tractate scan (lines 246-253). -/
def seriesTypeOf (combined : String) : String :=
  if strContains combined "daf yomi" then "Daf_Yomi"
  else if strContains combined "shiur" then "Shiurim"
  else if strContains combined "lecture" then "Lectures"
  else "General"

/-- The override keywords checked by the default classification branch
(line 260). -/
def specialWords : List String := ["special", "event", "announcement"]

/-- `MercazDafYomiExtractor.classify_video`: lower-case and concatenate the
two fields, scan the tractate table in order (first tractate any of whose
patterns is a substring wins), otherwise fall through the `daf yomi` check,
then the special-keyword check, then the default. -/
def classify_video (patterns : List (String × List String))
    (title description : String) : String × String :=
  let combined := lowerStr title ++ " " ++ lowerStr description
  match patterns.find? (fun tp => tp.2.any (fun pat => strContains combined pat)) with
  | some tp => (tp.1, seriesTypeOf combined)
  | none =>
    if strContains combined "daf yomi" then ("Unclassified", "Daf_Yomi")
    else if specialWords.any (fun w => strContains combined w) then
      ("Special_Series", "Events")
    else ("Unclassified", "General")

/-! ## Progress Store (`load_progress` / `save_progress`, lines 440-470) -/

/-- The progress dict (`extraction_progress.json`): completed identifiers,
failed identifiers, last completed batch number, processed counter, start
timestamp. -/
structure Progress where
  completed_videos : List String
  failed_videos : List String
  last_batch : Nat
  total_processed : Nat
  start_time : Option String
  deriving Repr, DecidableEq

/-- The fresh zero-valued state built inline by `load_progress` and
`run_extraction`. -/
def freshProgress (st : Option String) : Progress :=
  ⟨[], [], 0, 0, st⟩

/-- Observable condition of the progress file when `load_progress` runs:
absent, unreadable-or-unparseable (any exception raised by `open` or
`json.load`, including corrupt partial writes), or a well-formed stored
state.  `save_progress` only ever writes well-formed states, so these are
exactly the storage conditions arising in the system's lifecycle. -/
inductive Storage
  | missing
  | corrupt (why : String)
  | good (p : Progress)
  deriving Repr

/-- `MercazDafYomiExtractor.load_progress` (lines 440-462): missing file and
any read/parse exception both return the fresh zero-valued state; only a
well-formed file is returned as loaded. -/
def load_progress : Storage → Progress
  | .missing => freshProgress none
  | .corrupt _ => freshProgress none
  | .good p => p

/-! ## Batch Processor (`process_video_batch` / `run_extraction`, lines 472-722) -/

/-- One enumerated channel video as the batch loop sees it: stable
identifier, title and description (the further metadata fields — url,
publish time, counters — are carried through to sinks only and no claim
observes them). -/
structure Video where
  video_id : String
  title : String
  description : String
  deriving Repr, DecidableEq

/-- One entry of the `self.failed_videos` report list (lines 549-563): the
`error` field holds the Python value stored there, which can be `None`
(modelled `none`) when the last extraction attempt reported success with a
`None` error. The timestamp field is omitted. -/
structure FailRec where
  video_id : String
  title : String
  error : Option String
  deriving Repr, DecidableEq

/-- One success result record of the master catalog (lines 521-539),
restricted to the fields claims observe: identifier, title, the literal
`status` value, and the classification pair.  The remaining catalog columns
(url, timestamps, counters, word count, file path) are omitted. -/
structure ResultRec where
  video_id : String
  title : String
  status : String
  tractate : String
  series_type : String
  deriving Repr, DecidableEq

/-- Observable machine effects of the batch loop, in order: a
`get_video_metadata` call, an `extract_transcript` attempt (with its attempt
index), a `time.sleep` of the given number of seconds (backoff, the
inter-item rate limit, or the inter-batch pause), and a durable
`save_progress` write of the given state. -/
inductive Ev
  | metaFetch (video_id : String)
  | extractAttempt (video_id : String) (attempt : Nat)
  | sleepEv (secs : Nat)
  | saveProgressEv (p : Progress)
  deriving Repr, DecidableEq

/-- The per-item remote environment: the transcript-extraction outcome of
each retry attempt (attempt-indexed, since the remote service may answer
differently on a retry), and the outcome of `save_transcript` (a written
file path, or the exception caught at lines 547-554). -/
structure ItemEnv where
  fetch : Nat → Except String (List Entry)
  saveResult : Except String Unit

/-- Configuration slice read by the batch loop (`batch_size`,
`rate_limit_seconds`, `max_retries` of the default config, lines 53-55;
the pattern tables are taken from the default configuration directly). -/
structure Config where
  batch_size : Nat
  rate_limit_seconds : Nat
  max_retries : Nat
  deriving Repr, DecidableEq

/-- The retry loop of `process_video_batch` (lines 496-511), unrolled on the
number of remaining attempts (`fuel`); `a` is the current value of the Python
loop variable `attempt`.  The running triple holds the last values of
`transcript_text`, `transcript_data`, `extraction_metadata` (all `None`
before the first attempt).  On a successful attempt the loop breaks with the
current values and no backoff sleep; on a failed attempt that is not the
last, it sleeps `2 ^ attempt` seconds and continues; after the last failed
attempt the loop falls through with the last attempt's values. -/
def retryAux (fetch : Nat → Except String (List Entry)) (vid : String) :
    Nat → Nat → (Option String × Option (List Entry) × Option ExtractMeta) →
    (Option String × Option (List Entry) × Option ExtractMeta) × List Ev
  | _, 0, prev => (prev, [])
  | a, fuel + 1, _ =>
    let r := extract_transcript (fetch a)
    let cur := (r.1, r.2.1, some r.2.2)
    if r.2.2.success then (cur, [Ev.extractAttempt vid a])
    else
      match fuel with
      | 0 => (cur, [Ev.extractAttempt vid a])
      | f + 1 =>
        let rest := retryAux fetch vid (a + 1) (f + 1) cur
        (rest.1, Ev.extractAttempt vid a :: Ev.sleepEv (2 ^ a) :: rest.2)

/-- The whole `for attempt in range(max_retries)` loop for one item. -/
def extractionOutcome (fetch : Nat → Except String (List Entry))
    (mr : Nat) (vid : String) :
    (Option String × Option (List Entry) × Option ExtractMeta) × List Ev :=
  retryAux fetch vid 0 mr (none, none, none)

/-- The test at line 514, `if transcript_text and extraction_metadata['success']`,
under Python truthiness: `None` and the empty string are falsy.  (When
`transcript_text` is truthy the loop has run, so `extraction_metadata` is a
dict; the unreachable `none` case is mapped to `false`.) -/
def extractionOk
    (r : (Option String × Option (List Entry) × Option ExtractMeta) × List Ev) :
    Bool :=
  match r.1.1 with
  | none => false
  | some t =>
    if t = "" then false
    else
      match r.1.2.2 with
      | some m => m.success
      | none => false

/-- Processing of one item inside the batch loop (lines 479-568): skip (with
no effect at all) when the identifier is already in the completed set;
otherwise fetch metadata enrichment when the data API is available, run the
retry loop, then either persist and record a success (appending the id to
the completed set and bumping the processed counter), convert a persistence
exception into a `Save error: ...` failure record (progress untouched), or
record an extraction failure (appending the id to the failed set), and
finally apply the fixed inter-item rate-limit sleep.  Returns the updated
progress, the result records, the failure records, and the event trace.
The metadata enrichment content itself (which may overwrite title fields
used in sinks) is not modelled, only its occurrence. -/
def processItem (cfg : Config) (hasYt : Bool) (ienv : ItemEnv) (v : Video)
    (p : Progress) : Progress × List ResultRec × List FailRec × List Ev :=
  if v.video_id ∈ p.completed_videos then (p, [], [], [])
  else
    let evMeta : List Ev := if hasYt then [Ev.metaFetch v.video_id] else []
    let r := extractionOutcome ienv.fetch cfg.max_retries v.video_id
    let evs : List Ev := evMeta ++ r.2 ++ [Ev.sleepEv cfg.rate_limit_seconds]
    if extractionOk r then
      match ienv.saveResult with
      | .ok _ =>
        let cls := classify_video tractate_patterns v.title v.description
        ({p with completed_videos := p.completed_videos ++ [v.video_id],
                 total_processed := p.total_processed + 1},
         [⟨v.video_id, v.title, "success", cls.1, cls.2⟩], [], evs)
      | .error e =>
        (p, [], [⟨v.video_id, v.title, some ("Save error: " ++ e)⟩], evs)
    else
      let errMsg : Option String :=
        match r.1.2.2 with
        | some m => m.error
        | none => some "Unknown error"
      ({p with failed_videos := p.failed_videos ++ [v.video_id]},
       [], [⟨v.video_id, v.title, errMsg⟩], evs)

/-- The `for i, video_data in enumerate(videos)` loop of
`process_video_batch`, folding `processItem` left to right. -/
def processItems (cfg : Config) (hasYt : Bool) (env : String → ItemEnv) :
    List Video → Progress → Progress × List ResultRec × List FailRec × List Ev
  | [], p => (p, [], [], [])
  | v :: vs, p =>
    let s := processItem cfg hasYt (env v.video_id) v p
    let rest := processItems cfg hasYt env vs s.1
    (rest.1, s.2.1 ++ rest.2.1, s.2.2.1 ++ rest.2.2.1, s.2.2.2 ++ rest.2.2.2)

/-- `MercazDafYomiExtractor.process_video_batch`: run the item loop, then set
`last_batch` to this batch's number and durably save the progress state
(lines 570-572). -/
def process_video_batch (cfg : Config) (hasYt : Bool) (env : String → ItemEnv)
    (videos : List Video) (batch_num : Nat) (p : Progress) :
    Progress × List ResultRec × List FailRec × List Ev :=
  let s := processItems cfg hasYt env videos p
  let p2 := {s.1 with last_batch := batch_num}
  (p2, s.2.1, s.2.2.1, s.2.2.2 ++ [Ev.saveProgressEv p2])

/-- The Python batch slicing `remaining[i:i+batch_size]` for
`i in range(0, len, batch_size)`: successive `take`/`drop` chunks.  The
fuel argument (instantiated with the list length) only serves structural
termination; with `batch_size = 0` Python raises, here no batch is formed. -/
def batchesAux (bs : Nat) : Nat → List Video → List (List Video)
  | _, [] => []
  | 0, _ :: _ => []
  | fuel + 1, v :: l => ((v :: l).take bs) :: batchesAux bs fuel ((v :: l).drop bs)

def batchesOf (bs : Nat) (l : List Video) : List (List Video) :=
  if bs = 0 then [] else batchesAux bs l.length l

/-- Attach the 1-based batch numbers `(i // batch_size) + 1` (line 694). -/
def numberFrom (k : Nat) : List (List Video) → List (Nat × List Video)
  | [] => []
  | b :: rest => (k, b) :: numberFrom (k + 1) rest

/-- The batch loop of `run_extraction` (lines 693-710): skip a batch when
resuming and its number is at most the current `last_batch`; otherwise
process it and, when it is not the final batch, pause five seconds. -/
def runBatches (cfg : Config) (hasYt : Bool) (env : String → ItemEnv)
    (resume : Bool) (total : Nat) :
    List (Nat × List Video) → Progress →
    Progress × List ResultRec × List FailRec × List Ev
  | [], p => (p, [], [], [])
  | (bn, vs) :: rest, p =>
    if resume ∧ bn ≤ p.last_batch then
      runBatches cfg hasYt env resume total rest p
    else
      let s := process_video_batch cfg hasYt env vs bn p
      let inter : List Ev := if bn < total then [Ev.sleepEv 5] else []
      let r2 := runBatches cfg hasYt env resume total rest s.1
      (r2.1, s.2.1 ++ r2.2.1, s.2.2.1 ++ r2.2.2.1, s.2.2.2 ++ inter ++ r2.2.2.2)

/-- Initial progress of a run (lines 656-666): load the stored state when
resuming, else a fresh state stamped with the current time; a missing start
timestamp is filled in either way. -/
def initProgress (resume : Bool) (st : Storage) (now : String) : Progress :=
  let p := if resume then load_progress st else freshProgress (some now)
  if p.start_time = none then {p with start_time := some now} else p

/-- `MercazDafYomiExtractor.run_extraction` (lines 652-722) over an already
enumerated channel listing `all_videos` (the Remote Source Adapter
boundary): compute the remaining set by filtering the completed identifiers
when resuming with a nonempty completed set, partition it into batches, and
drive the batch loop.  The final report generation and the progress-file
rename (`finalize`) touch only sinks and are not modelled.  Returns the
final progress, all result records, all failure records, and the full event
trace; the early returns (no videos, nothing remaining) process nothing. -/
def run_extraction (cfg : Config) (hasYt : Bool) (env : String → ItemEnv)
    (all_videos : List Video) (resume : Bool) (st : Storage) (now : String) :
    Progress × List ResultRec × List FailRec × List Ev :=
  let p0 := initProgress resume st now
  if all_videos = [] then (p0, [], [], [])
  else
    let remaining :=
      if resume ∧ p0.completed_videos ≠ [] then
        all_videos.filter (fun v => decide (v.video_id ∉ p0.completed_videos))
      else all_videos
    if remaining = [] then (p0, [], [], [])
    else
      let bs := cfg.batch_size
      let total := (remaining.length + bs - 1) / bs
      runBatches cfg hasYt env resume total (numberFrom 1 (batchesOf bs remaining)) p0

/-! ## Trace observations used by the claims -/

/-- Batch numbers durably saved, in trace order. -/
def savedBatchNums (evs : List Ev) : List Nat :=
  evs.filterMap fun e =>
    match e with
    | .saveProgressEv p => some p.last_batch
    | _ => none

/-- Identifiers for which an extraction attempt was made, in trace order. -/
def attemptedIds (evs : List Ev) : List String :=
  evs.filterMap fun e =>
    match e with
    | .extractAttempt id _ => some id
    | _ => none

/-- Identifiers for which a metadata fetch was made, in trace order. -/
def metaFetchIds (evs : List Ev) : List String :=
  evs.filterMap fun e =>
    match e with
    | .metaFetch id => some id
    | _ => none

/-! ## Concrete instances shared by witnesses and counterexamples -/

/-- Environment in which every extraction attempt succeeds with the
transcript text "hello" and persistence succeeds. -/
def envOk : String → ItemEnv :=
  fun _ => ⟨fun _ => .ok [⟨"hello", 0, 1⟩], .ok ()⟩

/-- Environment in which every extraction attempt raises "boom". -/
def envFail : ItemEnv := ⟨fun _ => .error "boom", .ok ()⟩

/-- Environment in which extraction succeeds but the file write fails. -/
def envSaveErr : ItemEnv := ⟨fun _ => .ok [⟨"hello", 0, 1⟩], .error "disk full"⟩

/-- Environment whose transcript entries are pure whitespace. -/
def envWs : ItemEnv := ⟨fun _ => .ok [⟨" ", 0, 1⟩], .ok ()⟩

/-- Environment failing on attempt 0 and succeeding from attempt 1 on. -/
def envLateOk : ItemEnv :=
  ⟨fun a => if a = 0 then .error "quota" else .ok [⟨"hi", 0, 1⟩], .ok ()⟩

/-- Default-like configuration: batch size 50, rate limit 2, max retries 3. -/
def cfg50 : Config := ⟨50, 2, 3⟩

/-- Small-batch configuration used by the batch-boundary scenarios. -/
def cfg2 : Config := ⟨2, 2, 3⟩

/-! ## Claim C7: Progress Store load is total and corruption-tolerant -/

/-- C7: for every storage condition in which the progress file is absent or
its read/parse fails (unreadable or corrupt content), `load_progress`
returns the fresh zero-valued progress state — empty completed set, empty
failed set, last-batch index 0 — and, being a total function, never
raises; the corruption is not propagated. -/
theorem c7_load_total (st : Storage)
    (h : st = Storage.missing ∨ ∃ w, st = Storage.corrupt w) :
    load_progress st = ⟨[], [], 0, 0, none⟩ := by
  rcases h with h | ⟨w, h⟩ <;> subst h <;> rfl

/-- Witness for C7 at the two concrete corrupt storage conditions. -/
theorem c7_load_total_witness :
    load_progress Storage.missing = ⟨[], [], 0, 0, none⟩ ∧
    load_progress (Storage.corrupt "truncated json") = ⟨[], [], 0, 0, none⟩ :=
  ⟨c7_load_total Storage.missing (Or.inl rfl),
   c7_load_total (Storage.corrupt "truncated json") (Or.inr ⟨_, rfl⟩)⟩

/-! ## Claim C9: skipping an already-completed item has no effect at all -/

/-- Completed items short-circuit the loop body with no state change and no
events (lines 482-485: the `continue` runs before the metadata fetch, the
retry loop, any record append and the rate-limit sleep). -/
theorem processItem_skip (cfg : Config) (hasYt : Bool) (ienv : ItemEnv)
    (v : Video) (p : Progress) (h : v.video_id ∈ p.completed_videos) :
    processItem cfg hasYt ienv v p = (p, [], [], []) := by
  simp [processItem, h]

/-- C9: for an item whose identifier is already in the completed set, the
batch loop changes nothing on its account: no metadata fetch, no extraction
attempt, no result or failure record, no progress mutation, and no
inter-item rate-limit sleep (empty event trace); the fold continues with
the next item as if the item were absent. -/
theorem c9_skip_frame (cfg : Config) (hasYt : Bool) (env : String → ItemEnv)
    (v : Video) (vs : List Video) (p : Progress)
    (h : v.video_id ∈ p.completed_videos) :
    processItem cfg hasYt (env v.video_id) v p = (p, [], [], []) ∧
    processItems cfg hasYt env (v :: vs) p = processItems cfg hasYt env vs p := by
  refine ⟨processItem_skip cfg hasYt (env v.video_id) v p h, ?_⟩
  simp [processItems, processItem_skip cfg hasYt (env v.video_id) v p h]

/-- Witness for C9: a concrete completed item is skipped with no effect. -/
theorem c9_skip_frame_witness :
    ("A" : String) ∈ ["A", "B"] ∧
    (processItem cfg50 true (envOk "A") ⟨"A", "t", ""⟩ ⟨["A", "B"], [], 0, 0, none⟩
        = (⟨["A", "B"], [], 0, 0, none⟩, [], [], []) ∧
     processItems cfg50 true envOk [⟨"A", "t", ""⟩, ⟨"Z", "u", ""⟩] ⟨["A", "B"], [], 0, 0, none⟩
        = processItems cfg50 true envOk [⟨"Z", "u", ""⟩] ⟨["A", "B"], [], 0, 0, none⟩) :=
  ⟨by decide,
   c9_skip_frame cfg50 true envOk ⟨"A", "t", ""⟩ [⟨"Z", "u", ""⟩]
     ⟨["A", "B"], [], 0, 0, none⟩ (by decide)⟩

/-! ## Claim C6: classifier override precedence -/

/-- C6 counterexample: the combined lower-cased text of the title
"Special Event: Berachos Siyum" contains the override keywords "special"
and "event", yet `classify_video` returns ("Berachos", "General"), not
("Special_Series", "Events"): the tractate table is scanned first
(lines 242-255) and the override keywords are only consulted in the
fallback branch (line 260), so they do not take precedence. -/
theorem c6_override_counterexample :
    strContains (lowerStr "Special Event: Berachos Siyum" ++ " " ++ lowerStr "") "special" = true ∧
    strContains (lowerStr "Special Event: Berachos Siyum" ++ " " ++ lowerStr "") "event" = true ∧
    classify_video tractate_patterns "Special Event: Berachos Siyum" "" = ("Berachos", "General") ∧
    ("Berachos", "General") ≠ ("Special_Series", "Events") := by
  refine ⟨by decide, by decide, by decide, by decide⟩

/-- C6 amended: the override keywords force ("Special_Series", "Events")
only in the default branch — that is, when no pattern of the category table
matches the combined text and the text does not contain "daf yomi"; they do
not take precedence over the table scan. -/
theorem c6_override_fallback (patterns : List (String × List String))
    (title description : String)
    (hno : ∀ tp ∈ patterns, ∀ pat ∈ tp.2,
      strContains (lowerStr title ++ " " ++ lowerStr description) pat = false)
    (hdy : strContains (lowerStr title ++ " " ++ lowerStr description) "daf yomi" = false)
    (w : String) (hw : w ∈ specialWords)
    (hsp : strContains (lowerStr title ++ " " ++ lowerStr description) w = true) :
    classify_video patterns title description = ("Special_Series", "Events") := by
  have hfind : patterns.find? (fun tp => tp.2.any fun pat =>
      strContains (lowerStr title ++ " " ++ lowerStr description) pat) = none := by
    rw [List.find?_eq_none]
    intro tp htp
    simp only [List.any_eq_true, not_exists]
    intro pat hcon
    rcases hcon with ⟨hpat, hc⟩
    exact absurd hc (by simp [hno tp htp pat hpat])
  have hany : specialWords.any (fun w =>
      strContains (lowerStr title ++ " " ++ lowerStr description) w) = true :=
    List.any_eq_true.2 ⟨w, hw, hsp⟩
  simp only [classify_video, hfind, hdy, hany]
  simp

/-- Witness for C6 amended: a title containing only an override keyword is
classified ("Special_Series", "Events"). -/
theorem c6_override_fallback_witness :
    classify_video tractate_patterns "Yahrzeit announcement" "" = ("Special_Series", "Events") :=
  c6_override_fallback tractate_patterns "Yahrzeit announcement" ""
    (by decide) (by decide) "announcement" (by decide) (by decide)

/-! ## Claim C8: duration parser correctness and totality -/

theorem munchDigits_append (ds : List Char) (hds : ∀ c ∈ ds, c.isDigit = true)
    (c : Char) (hc : c.isDigit = false) (rest : List Char) :
    munchDigits (ds ++ c :: rest) = (ds, c :: rest) := by
  induction ds with
  | nil => simp [munchDigits, hc]
  | cons d ds ih =>
    have hd : d.isDigit = true := hds d (by simp)
    simp [munchDigits, hd, ih (fun x hx => hds x (by simp [hx]))]

theorem munchDigits_all (ds : List Char) (hds : ∀ c ∈ ds, c.isDigit = true) :
    munchDigits ds = (ds, []) := by
  induction ds with
  | nil => rfl
  | cons d ds ih =>
    have hd : d.isDigit = true := hds d (by simp)
    simp [munchDigits, hd, ih (fun x hx => hds x (by simp [hx]))]

theorem digitChar_isDigit (d : Nat) (h : d < 10) : (digitChar d).isDigit = true := by
  interval_cases d <;> decide

theorem digitChar_val (d : Nat) (h : d < 10) :
    (digitChar d).toNat - '0'.toNat = d := by
  interval_cases d <;> decide

theorem digitChars_digits (ds : List Nat) (h : ∀ d ∈ ds, d < 10) :
    ∀ c ∈ digitChars ds, c.isDigit = true := by
  intro c hc
  simp only [digitChars, List.mem_map] at hc
  rcases hc with ⟨d, hd, rfl⟩
  exact digitChar_isDigit d (h d hd)

theorem digitsVal_digitChars_aux (ds : List Nat) (h : ∀ d ∈ ds, d < 10) (a : Nat) :
    (digitChars ds).foldl (fun a c => 10 * a + (c.toNat - '0'.toNat)) a =
      ds.foldl (fun a d => 10 * a + d) a := by
  induction ds generalizing a with
  | nil => rfl
  | cons d ds ih =>
    simp only [digitChars, List.map_cons, List.foldl_cons]
    rw [digitChar_val d (h d (by simp))]
    exact ih (fun x hx => h x (by simp [hx])) _

theorem digitsVal_digitChars (ds : List Nat) (h : ∀ d ∈ ds, d < 10) :
    digitsVal (digitChars ds) = valBE ds :=
  digitsVal_digitChars_aux ds h 0

theorem tryUnit_of_munch_cons (u : Char) (cs : List Char) (d : Char)
    (t : List Char) (r : Char) (rest2 : List Char)
    (h : munchDigits cs = (d :: t, r :: rest2)) :
    tryUnit u cs = if r = u then some (digitsVal (d :: t), rest2) else none := by
  unfold tryUnit
  rw [h]

theorem tryUnit_of_munch_nil (u : Char) (cs : List Char) (rest2 : List Char)
    (h : munchDigits cs = ([], rest2)) : tryUnit u cs = none := by
  unfold tryUnit
  rw [h]

theorem tryUnit_of_munch_end (u : Char) (cs : List Char) (d : Char) (t : List Char)
    (h : munchDigits cs = (d :: t, [])) : tryUnit u cs = none := by
  unfold tryUnit
  rw [h]

theorem tryUnit_ok (u : Char) (hu : u.isDigit = false) (ds : List Nat)
    (hne : ds ≠ []) (hd : ∀ d ∈ ds, d < 10) (rest : List Char) :
    tryUnit u (digitChars ds ++ u :: rest) = some (valBE ds, rest) := by
  have h1 : munchDigits (digitChars ds ++ u :: rest) = (digitChars ds, u :: rest) :=
    munchDigits_append _ (digitChars_digits ds hd) u hu rest
  obtain ⟨d, ds0, rfl⟩ := List.exists_cons_of_ne_nil hne
  have h2 : digitChars (d :: ds0) = digitChar d :: digitChars ds0 := rfl
  rw [h2] at h1
  rw [h2, tryUnit_of_munch_cons u _ _ _ _ _ h1, if_pos rfl, ← h2,
    digitsVal_digitChars _ hd]

theorem tryUnit_fail_head (u : Char) (ds : List Nat) (hd : ∀ d ∈ ds, d < 10)
    (c : Char) (hc : c.isDigit = false) (hne : c ≠ u) (rest : List Char) :
    tryUnit u (digitChars ds ++ c :: rest) = none := by
  have h1 : munchDigits (digitChars ds ++ c :: rest) = (digitChars ds, c :: rest) :=
    munchDigits_append _ (digitChars_digits ds hd) c hc rest
  cases ds with
  | nil => exact tryUnit_of_munch_nil u _ _ h1
  | cons d ds0 =>
    have h2 : digitChars (d :: ds0) = digitChar d :: digitChars ds0 := rfl
    rw [h2] at h1
    rw [h2, tryUnit_of_munch_cons u _ _ _ _ _ h1, if_neg hne]

theorem tryUnit_digitsOnly (u : Char) (ds : List Nat) (hd : ∀ d ∈ ds, d < 10) :
    tryUnit u (digitChars ds) = none := by
  have h1 : munchDigits (digitChars ds) = (digitChars ds, []) :=
    munchDigits_all _ (digitChars_digits ds hd)
  cases ds with
  | nil => rfl
  | cons d ds0 =>
    have h2 : digitChars (d :: ds0) = digitChar d :: digitChars ds0 := rfl
    rw [h2] at h1
    exact tryUnit_of_munch_end u _ _ _ h1

theorem tryUnit_skip1 (u u2 : Char) (h2 : u2 ≠ u) (hd2 : u2.isDigit = false)
    (o2 : Option (List Nat)) (g2 : GoodComp o2) :
    tryUnit u (compOf u2 o2) = none := by
  cases o2 with
  | none => rfl
  | some ds =>
    have heq : compOf u2 (some ds) = digitChars ds ++ u2 :: [] := rfl
    rw [heq]
    exact tryUnit_fail_head u ds g2.2 u2 hd2 h2 []

theorem tryUnit_skip2 (u u1 u2 : Char) (h1 : u1 ≠ u) (h2 : u2 ≠ u)
    (hd1 : u1.isDigit = false) (hd2 : u2.isDigit = false)
    (o1 o2 : Option (List Nat)) (g1 : GoodComp o1) (g2 : GoodComp o2) :
    tryUnit u (compOf u1 o1 ++ compOf u2 o2) = none := by
  cases o1 with
  | none => simpa [compOf] using tryUnit_skip1 u u2 h2 hd2 o2 g2
  | some ds =>
    have heq : compOf u1 (some ds) ++ compOf u2 o2 =
        digitChars ds ++ u1 :: compOf u2 o2 := by
      simp [compOf]
    rw [heq]
    exact tryUnit_fail_head u ds g1.2 u1 hd1 h1 _

theorem tryUnit_comp_ok (u : Char) (hu : u.isDigit = false) (ds : List Nat)
    (g : GoodComp (some ds)) (tail : List Char) :
    tryUnit u (compOf u (some ds) ++ tail) = some (valBE ds, tail) := by
  have heq : compOf u (some ds) ++ tail = digitChars ds ++ u :: tail := by
    simp [compOf]
  rw [heq]
  exact tryUnit_ok u hu ds g.1 g.2 tail

theorem stepUnit_some (u : Char) (cs : List Char) (r : Nat × List Char)
    (h : tryUnit u cs = some r) : stepUnit u cs = r := by
  unfold stepUnit
  rw [h]

theorem stepUnit_none (u : Char) (cs : List Char)
    (h : tryUnit u cs = none) : stepUnit u cs = (0, cs) := by
  unfold stepUnit
  rw [h]

/-- C8: the duration parser is a total pure function; on every token of the
recognized compact form (designator `PT`, then any subset of the hours,
minutes, seconds components, each written as a nonempty digit string
followed by its unit letter) it returns `H*3600 + M*60 + S` with absent
components counting as zero, and on every string carrying no recognizable
unit it returns 0 (it cannot raise). -/
theorem c8_parse_duration :
    (∀ h m s : Option (List Nat), GoodComp h → GoodComp m → GoodComp s →
      parse_duration (durToken h m s) =
        compVal h * 3600 + compVal m * 60 + compVal s) ∧
    (∀ str : String, noUnit str = true → parse_duration str = 0) := by
  constructor
  · intro h m s gh gm gs
    have e1 : stepUnit 'H' (compOf 'H' h ++ (compOf 'M' m ++ compOf 'S' s)) =
        (compVal h, compOf 'M' m ++ compOf 'S' s) := by
      cases h with
      | some ds => exact stepUnit_some _ _ _ (tryUnit_comp_ok 'H' (by decide) ds gh _)
      | none =>
        have : (compOf 'H' none : List Char) ++ (compOf 'M' m ++ compOf 'S' s) =
            compOf 'M' m ++ compOf 'S' s := by simp [compOf]
        rw [this]
        exact stepUnit_none _ _
          (tryUnit_skip2 'H' 'M' 'S' (by decide) (by decide) (by decide) (by decide) m s gm gs)
    have e2 : stepUnit 'M' (compOf 'M' m ++ compOf 'S' s) =
        (compVal m, compOf 'S' s) := by
      cases m with
      | some ds => exact stepUnit_some _ _ _ (tryUnit_comp_ok 'M' (by decide) ds gm _)
      | none =>
        have : (compOf 'M' none : List Char) ++ compOf 'S' s = compOf 'S' s := by
          simp [compOf]
        rw [this]
        exact stepUnit_none _ _ (tryUnit_skip1 'M' 'S' (by decide) (by decide) s gs)
    have e3 : stepUnit 'S' (compOf 'S' s) = (compVal s, []) := by
      cases s with
      | some ds =>
        have : (compOf 'S' (some ds) : List Char) = compOf 'S' (some ds) ++ [] := by simp
        rw [this]
        exact stepUnit_some _ _ _ (tryUnit_comp_ok 'S' (by decide) ds gs [])
      | none => rfl
    have hstep : parse_duration (durToken h m s) =
        (stepUnit 'H' (compOf 'H' h ++ (compOf 'M' m ++ compOf 'S' s))).1 * 3600 +
        (stepUnit 'M' (stepUnit 'H' (compOf 'H' h ++ (compOf 'M' m ++ compOf 'S' s))).2).1 * 60 +
        (stepUnit 'S' (stepUnit 'M'
          (stepUnit 'H' (compOf 'H' h ++ (compOf 'M' m ++ compOf 'S' s))).2).2).1 := rfl
    rw [hstep, e1]
    rw [show ((compVal h, compOf 'M' m ++ compOf 'S' s) :
      Nat × List Char).2 = compOf 'M' m ++ compOf 'S' s from rfl, e2]
    rw [show ((compVal m, compOf 'S' s) : Nat × List Char).2 = compOf 'S' s from rfl, e3]
  · intro str hnu
    unfold parse_duration
    split
    · next cs heq =>
      unfold noUnit at hnu
      rw [heq] at hnu
      simp only [Bool.and_eq_true, Option.isNone_iff_eq_none] at hnu
      simp [stepUnit_none _ _ hnu.1.1, stepUnit_none _ _ hnu.1.2,
        stepUnit_none _ _ hnu.2]
    · rfl

/-- Witness for C8 at the token "PT1H23M45S" and the non-matching string
"hello"; both hypothesis sets are discharged concretely. -/
theorem c8_parse_duration_witness :
    parse_duration (durToken (some [1]) (some [2, 3]) (some [4, 5])) =
      compVal (some [1]) * 3600 + compVal (some [2, 3]) * 60 + compVal (some [4, 5]) ∧
    parse_duration "hello" = 0 :=
  ⟨c8_parse_duration.1 (some [1]) (some [2, 3]) (some [4, 5])
      (by decide) (by decide) (by decide),
   c8_parse_duration.2 "hello" (by decide)⟩

/-! ## Retry-loop lemmas (claims C3 and C10) -/

theorem extract_fail_text (fo : Except String (List Entry))
    (h : (extract_transcript fo).2.2.success = false) :
    (extract_transcript fo).1 = none := by
  cases fo with
  | error e => rfl
  | ok es =>
    cases es with
    | nil => rfl
    | cons e es => simp [extract_transcript] at h

theorem extract_fail_data (fo : Except String (List Entry))
    (h : (extract_transcript fo).2.2.success = false) :
    (extract_transcript fo).2.1 = none := by
  cases fo with
  | error e => rfl
  | ok es =>
    cases es with
    | nil => rfl
    | cons e es => simp [extract_transcript] at h

/-- When every attempt from index `a` for `fuel` attempts fails, the retry
loop makes exactly `fuel` attempts separated by the exponential backoff
sleeps and falls through with the last attempt's metadata. -/
theorem retryAux_allFail (fetch : Nat → Except String (List Entry))
    (vid : String) :
    ∀ (fuel a : Nat)
      (prev : Option String × Option (List Entry) × Option ExtractMeta),
      0 < fuel →
      (∀ j, j < fuel → (extract_transcript (fetch (a + j))).2.2.success = false) →
      retryAux fetch vid a fuel prev =
        ((none, none, some (extract_transcript (fetch (a + fuel - 1))).2.2),
         (((List.range' a (fuel - 1)).map
             fun i => [Ev.extractAttempt vid i, Ev.sleepEv (2 ^ i)]).flatten
           ++ [Ev.extractAttempt vid (a + fuel - 1)])) := by
  intro fuel
  induction fuel with
  | zero => intro a prev h0; omega
  | succ f ih =>
    intro a prev _ hfail
    have hf0 : (extract_transcript (fetch a)).2.2.success = false := by
      simpa using hfail 0 (by omega)
    cases f with
    | zero =>
      simp [retryAux, hf0, extract_fail_text _ hf0, extract_fail_data _ hf0,
        List.range']
    | succ f2 =>
      have hrest := ih (a + 1)
        ((extract_transcript (fetch a)).1, (extract_transcript (fetch a)).2.1,
          some (extract_transcript (fetch a)).2.2)
        (by omega)
        (fun j hj => by
          have := hfail (j + 1) (by omega)
          simpa [Nat.add_assoc, Nat.add_comm 1 j] using this)
      simp only [retryAux]
      rw [hf0, if_neg (by simp), hrest]
      have hidx : a + 1 + (f2 + 1) - 1 = a + (f2 + 1 + 1) - 1 := by omega
      rw [hidx]
      rw [show f2 + 1 + 1 - 1 = f2 + 1 from rfl, show f2 + 1 - 1 = f2 from rfl,
        List.range'_succ]
      simp

/-- When the attempts before relative index `k` fail and attempt `a + k`
reports success, the retry loop stops there: it returns that attempt's
values and makes exactly `k + 1` attempts with backoff sleeps between
them and no sleep after the successful attempt. -/
theorem retryAux_stopsAt (fetch : Nat → Except String (List Entry))
    (vid : String) :
    ∀ (k fuel a : Nat)
      (prev : Option String × Option (List Entry) × Option ExtractMeta),
      k < fuel →
      (∀ j, j < k → (extract_transcript (fetch (a + j))).2.2.success = false) →
      (extract_transcript (fetch (a + k))).2.2.success = true →
      retryAux fetch vid a fuel prev =
        (((extract_transcript (fetch (a + k))).1,
          (extract_transcript (fetch (a + k))).2.1,
          some (extract_transcript (fetch (a + k))).2.2),
         (((List.range' a k).map
             fun i => [Ev.extractAttempt vid i, Ev.sleepEv (2 ^ i)]).flatten
           ++ [Ev.extractAttempt vid (a + k)])) := by
  intro k
  induction k with
  | zero =>
    intro fuel a prev hk hfail hsucc
    cases fuel with
    | zero => omega
    | succ f =>
      rw [Nat.add_zero] at hsucc
      cases f with
      | zero => simp [retryAux, hsucc]
      | succ f2 => simp [retryAux, hsucc]
  | succ k2 ih =>
    intro fuel a prev hk hfail hsucc
    cases fuel with
    | zero => omega
    | succ f =>
      have hf0 : (extract_transcript (fetch a)).2.2.success = false := by
        simpa using hfail 0 (by omega)
      cases f with
      | zero => omega
      | succ f2 =>
        have hrest := ih (f2 + 1) (a + 1)
          ((extract_transcript (fetch a)).1, (extract_transcript (fetch a)).2.1,
            some (extract_transcript (fetch a)).2.2)
          (by omega)
          (fun j hj => by
            have := hfail (j + 1) (by omega)
            simpa [Nat.add_assoc, Nat.add_comm 1 j] using this)
          (by
            have heq : a + 1 + k2 = a + (k2 + 1) := by omega
            rw [heq]
            exact hsucc)
        simp only [retryAux]
        rw [hf0, if_neg (by simp), hrest]
        have heq : a + 1 + k2 = a + (k2 + 1) := by omega
        rw [heq, List.range'_succ]
        simp

/-! ## Branch lemmas for the per-item state machine -/

theorem processItem_extractFail (cfg : Config) (hasYt : Bool) (ienv : ItemEnv)
    (v : Video) (p : Progress) (hm : v.video_id ∉ p.completed_videos)
    (hok : extractionOk (extractionOutcome ienv.fetch cfg.max_retries v.video_id) = false) :
    processItem cfg hasYt ienv v p =
      ({p with failed_videos := p.failed_videos ++ [v.video_id]}, [],
       [⟨v.video_id, v.title,
          match (extractionOutcome ienv.fetch cfg.max_retries v.video_id).1.2.2 with
          | some m => m.error
          | none => some "Unknown error"⟩],
       (if hasYt then [Ev.metaFetch v.video_id] else []) ++
         (extractionOutcome ienv.fetch cfg.max_retries v.video_id).2 ++
         [Ev.sleepEv cfg.rate_limit_seconds]) := by
  simp only [processItem]
  rw [if_neg hm, hok, if_neg (by simp)]

theorem processItem_saveOk (cfg : Config) (hasYt : Bool) (ienv : ItemEnv)
    (v : Video) (p : Progress) (u : Unit) (hm : v.video_id ∉ p.completed_videos)
    (hok : extractionOk (extractionOutcome ienv.fetch cfg.max_retries v.video_id) = true)
    (hsave : ienv.saveResult = .ok u) :
    processItem cfg hasYt ienv v p =
      ({p with completed_videos := p.completed_videos ++ [v.video_id],
               total_processed := p.total_processed + 1},
       [⟨v.video_id, v.title, "success",
         (classify_video tractate_patterns v.title v.description).1,
         (classify_video tractate_patterns v.title v.description).2⟩], [],
       (if hasYt then [Ev.metaFetch v.video_id] else []) ++
         (extractionOutcome ienv.fetch cfg.max_retries v.video_id).2 ++
         [Ev.sleepEv cfg.rate_limit_seconds]) := by
  simp only [processItem]
  rw [if_neg hm, hok, if_pos rfl, hsave]

theorem processItem_saveErr (cfg : Config) (hasYt : Bool) (ienv : ItemEnv)
    (v : Video) (p : Progress) (e : String) (hm : v.video_id ∉ p.completed_videos)
    (hok : extractionOk (extractionOutcome ienv.fetch cfg.max_retries v.video_id) = true)
    (hsave : ienv.saveResult = .error e) :
    processItem cfg hasYt ienv v p =
      (p, [], [⟨v.video_id, v.title, some ("Save error: " ++ e)⟩],
       (if hasYt then [Ev.metaFetch v.video_id] else []) ++
         (extractionOutcome ienv.fetch cfg.max_retries v.video_id).2 ++
         [Ev.sleepEv cfg.rate_limit_seconds]) := by
  simp only [processItem]
  rw [if_neg hm, hok, if_pos rfl, hsave]

theorem extractionOk_elim
    (r : (Option String × Option (List Entry) × Option ExtractMeta) × List Ev)
    (h : extractionOk r = true) : r.1.1 ≠ none ∧ r.1.1 ≠ some "" := by
  unfold extractionOk at h
  rcases hr1 : r.1.1 with _ | t
  · rw [hr1] at h
    cases h
  · rw [hr1] at h
    have h2 : (if t = "" then false
        else match r.1.2.2 with
          | some m => m.success
          | none => false) = true := h
    by_cases ht : t = ""
    · rw [if_pos ht] at h2
      cases h2
    · exact ⟨by simp, by simp [ht]⟩

/-! ## Claim C3: retry exhaustion and stop-on-success -/

/-- C3: (first part) for an item whose extraction fails on every attempt,
extraction is attempted exactly `max_retries` times with a `2 ^ attempt`
second backoff sleep between consecutive attempts (and none after the
last), and the item is recorded as a failure carrying the last attempt's
error — never as a success (the result-record list is empty and the
identifier joins the failed set).  (Second part) an attempt that yields a
successful non-empty transcript stops the retry loop at that attempt — the
loop makes only the attempts up to and including it — and the extraction is
marked successful. -/
theorem c3_retry_exhaustion (cfg : Config) (hasYt : Bool) (ienv : ItemEnv)
    (v : Video) (p : Progress)
    (hm : v.video_id ∉ p.completed_videos) (hmr : 0 < cfg.max_retries) :
    ((∀ j, j < cfg.max_retries →
        (extract_transcript (ienv.fetch j)).2.2.success = false) →
      processItem cfg hasYt ienv v p =
        ({p with failed_videos := p.failed_videos ++ [v.video_id]}, [],
         [⟨v.video_id, v.title,
            (extract_transcript (ienv.fetch (cfg.max_retries - 1))).2.2.error⟩],
         (if hasYt then [Ev.metaFetch v.video_id] else []) ++
           ((((List.range (cfg.max_retries - 1)).map
               fun i => [Ev.extractAttempt v.video_id i, Ev.sleepEv (2 ^ i)]).flatten
             ++ [Ev.extractAttempt v.video_id (cfg.max_retries - 1)])) ++
           [Ev.sleepEv cfg.rate_limit_seconds])) ∧
    (∀ k t, k < cfg.max_retries →
      (∀ j, j < k → (extract_transcript (ienv.fetch j)).2.2.success = false) →
      (extract_transcript (ienv.fetch k)).2.2.success = true →
      (extract_transcript (ienv.fetch k)).1 = some t → t ≠ "" →
      extractionOutcome ienv.fetch cfg.max_retries v.video_id =
        ((some t, (extract_transcript (ienv.fetch k)).2.1,
          some (extract_transcript (ienv.fetch k)).2.2),
         (((List.range k).map
             fun i => [Ev.extractAttempt v.video_id i, Ev.sleepEv (2 ^ i)]).flatten
           ++ [Ev.extractAttempt v.video_id k])) ∧
      extractionOk (extractionOutcome ienv.fetch cfg.max_retries v.video_id) = true) := by
  constructor
  · intro hall
    have hr := retryAux_allFail ienv.fetch v.video_id cfg.max_retries 0
      (none, none, none) hmr (fun j hj => by simpa using hall j hj)
    have hout : extractionOutcome ienv.fetch cfg.max_retries v.video_id =
        ((none, none, some (extract_transcript (ienv.fetch (cfg.max_retries - 1))).2.2),
         (((List.range (cfg.max_retries - 1)).map
             fun i => [Ev.extractAttempt v.video_id i, Ev.sleepEv (2 ^ i)]).flatten
           ++ [Ev.extractAttempt v.video_id (cfg.max_retries - 1)])) := by
      rw [extractionOutcome, hr]
      simp [List.range_eq_range']
    have hok : extractionOk (extractionOutcome ienv.fetch cfg.max_retries v.video_id) = false := by
      rw [hout]
      rfl
    rw [processItem_extractFail cfg hasYt ienv v p hm hok, hout]
  · intro k t hk hfail hsucc htext ht
    have hr := retryAux_stopsAt ienv.fetch v.video_id k cfg.max_retries 0
      (none, none, none) hk (fun j hj => by simpa using hfail j hj)
      (by simpa using hsucc)
    have hout : extractionOutcome ienv.fetch cfg.max_retries v.video_id =
        ((some t, (extract_transcript (ienv.fetch k)).2.1,
          some (extract_transcript (ienv.fetch k)).2.2),
         (((List.range k).map
             fun i => [Ev.extractAttempt v.video_id i, Ev.sleepEv (2 ^ i)]).flatten
           ++ [Ev.extractAttempt v.video_id k])) := by
      rw [extractionOutcome, hr]
      simp [List.range_eq_range', htext]
    refine ⟨hout, ?_⟩
    rw [hout]
    simp [extractionOk, ht, hsucc]

/-- Witness for C3: with an environment failing every attempt, the item is
retried three times with backoff sleeps of 1 and 2 seconds and recorded as
a failure carrying the last error; with an environment succeeding on the
second attempt, the loop stops after two attempts and marks success. -/
theorem c3_retry_exhaustion_witness :
    (processItem cfg50 false envFail ⟨"V", "T", ""⟩ ⟨[], [], 0, 0, none⟩ =
      (⟨[], ["V"], 0, 0, none⟩, [], [⟨"V", "T", some "boom"⟩],
       [Ev.extractAttempt "V" 0, Ev.sleepEv 1, Ev.extractAttempt "V" 1,
        Ev.sleepEv 2, Ev.extractAttempt "V" 2, Ev.sleepEv 2])) ∧
    (extractionOutcome envLateOk.fetch cfg50.max_retries "V" =
      ((some "hi", some [⟨"hi", 0, 1⟩], some ⟨true, none⟩),
       [Ev.extractAttempt "V" 0, Ev.sleepEv 1, Ev.extractAttempt "V" 1]) ∧
     extractionOk (extractionOutcome envLateOk.fetch cfg50.max_retries "V") = true) :=
  ⟨(c3_retry_exhaustion cfg50 false envFail ⟨"V", "T", ""⟩ ⟨[], [], 0, 0, none⟩
      (by decide) (by decide)).1 (by decide),
   (c3_retry_exhaustion cfg50 false envLateOk ⟨"V", "T", ""⟩ ⟨[], [], 0, 0, none⟩
      (by decide) (by decide)).2 1 "hi" (by decide) (by decide) (by decide)
      (by decide) (by decide)⟩

/-! ## Claim C10: success records come only from non-empty transcripts -/

/-- C10: (first part) every result record the item loop appends has status
"success", and a record is appended only when the retry loop's transcript
text is a non-empty string.  (Second part) when an attempt reports success
but its flattened transcript text strips to the empty string (every entry
whitespace), the item is recorded as a failure, not a success, and that
failure record carries the succeeding attempt's `None` error field as its
message, while the identifier joins the failed set. -/
theorem c10_nonempty_success (cfg : Config) (hasYt : Bool) (ienv : ItemEnv)
    (v : Video) (p : Progress) (hm : v.video_id ∉ p.completed_videos) :
    ((∀ r ∈ (processItem cfg hasYt ienv v p).2.1, r.status = "success") ∧
     ((processItem cfg hasYt ienv v p).2.1 ≠ [] →
       (extractionOutcome ienv.fetch cfg.max_retries v.video_id).1.1 ≠ none ∧
       (extractionOutcome ienv.fetch cfg.max_retries v.video_id).1.1 ≠ some "")) ∧
    (∀ k es, k < cfg.max_retries →
      (∀ j, j < k → (extract_transcript (ienv.fetch j)).2.2.success = false) →
      ienv.fetch k = .ok es → es ≠ [] → flattenEntries es = "" →
      (processItem cfg hasYt ienv v p).2.1 = [] ∧
      (processItem cfg hasYt ienv v p).2.2.1 = [⟨v.video_id, v.title, none⟩] ∧
      (processItem cfg hasYt ienv v p).1.failed_videos =
        p.failed_videos ++ [v.video_id]) := by
  constructor
  · by_cases hok : extractionOk (extractionOutcome ienv.fetch cfg.max_retries v.video_id) = true
    · cases hsave : ienv.saveResult with
      | ok u =>
        rw [processItem_saveOk cfg hasYt ienv v p u hm hok hsave]
        exact ⟨by simp, fun _ => extractionOk_elim _ hok⟩
      | error e =>
        rw [processItem_saveErr cfg hasYt ienv v p e hm hok hsave]
        exact ⟨by simp, by simp⟩
    · rw [processItem_extractFail cfg hasYt ienv v p hm (by simpa using hok)]
      exact ⟨by simp, by simp⟩
  · intro k es hk hfail hfetch hne hflat
    obtain ⟨e, es0, rfl⟩ := List.exists_cons_of_ne_nil hne
    have hfe : extract_transcript (ienv.fetch k) =
        (some "", some (e :: es0), ⟨true, none⟩) := by
      rw [hfetch]
      simp [extract_transcript, hflat]
    have hr := retryAux_stopsAt ienv.fetch v.video_id k cfg.max_retries 0
      (none, none, none) hk (fun j hj => by simpa using hfail j hj)
      (by simpa using congrArg (fun x => x.2.2.success) hfe)
    have hout : (extractionOutcome ienv.fetch cfg.max_retries v.video_id).1 =
        (some "", some (e :: es0), some ⟨true, none⟩) := by
      rw [extractionOutcome, hr]
      simp [hfe]
    have hok : extractionOk (extractionOutcome ienv.fetch cfg.max_retries v.video_id) = false := by
      unfold extractionOk
      rw [hout]
      rfl
    rw [processItem_extractFail cfg hasYt ienv v p hm hok]
    refine ⟨rfl, ?_, rfl⟩
    rw [hout]

/-- Witness for C10: the success environment yields a non-empty recorded
text, and the all-whitespace-transcript environment yields a failure record
whose error field is `none` with the identifier in the failed set. -/
theorem c10_nonempty_success_witness :
    ((extractionOutcome (envOk "V").fetch cfg50.max_retries "V").1.1 ≠ none ∧
     (extractionOutcome (envOk "V").fetch cfg50.max_retries "V").1.1 ≠ some "") ∧
    ((processItem cfg50 false envWs ⟨"V", "T", ""⟩ ⟨[], [], 0, 0, none⟩).2.1 = [] ∧
     (processItem cfg50 false envWs ⟨"V", "T", ""⟩ ⟨[], [], 0, 0, none⟩).2.2.1 =
       [⟨"V", "T", none⟩] ∧
     (processItem cfg50 false envWs ⟨"V", "T", ""⟩ ⟨[], [], 0, 0, none⟩).1.failed_videos =
       [] ++ ["V"]) :=
  ⟨(c10_nonempty_success cfg50 false (envOk "V") ⟨"V", "T", ""⟩ ⟨[], [], 0, 0, none⟩
      (by decide)).1.2 (by decide),
   (c10_nonempty_success cfg50 false envWs ⟨"V", "T", ""⟩ ⟨[], [], 0, 0, none⟩
      (by decide)).2 0 [⟨" ", 0, 1⟩] (by decide)
      (fun j hj => absurd hj (Nat.not_lt_zero j)) rfl (by decide) (by decide)⟩

/-! ## Claim C4: persistence failure is fatal to the single item only -/

/-- C4 counterexample: in a run where item "W" extracts successfully but its
file write fails and item "G" succeeds, a human-readable failure record is
produced for "W" and the rest of the batch is processed — but "W" is NOT
added to the Progress State failed set (nor to the completed set), contrary
to the claim that the identifier ends up in the failed set: the save-error
branch at lines 547-554 only appends to the report list. -/
theorem c4_counterexample :
    ((run_extraction cfg50 false (fun id => if id = "W" then envSaveErr else envOk id)
        [⟨"W", "W title", ""⟩, ⟨"G", "G title", ""⟩] false Storage.missing "now").2.2.1 =
      [⟨"W", "W title", some "Save error: disk full"⟩]) ∧
    ((run_extraction cfg50 false (fun id => if id = "W" then envSaveErr else envOk id)
        [⟨"W", "W title", ""⟩, ⟨"G", "G title", ""⟩] false Storage.missing "now").1.failed_videos =
      []) ∧
    ((run_extraction cfg50 false (fun id => if id = "W" then envSaveErr else envOk id)
        [⟨"W", "W title", ""⟩, ⟨"G", "G title", ""⟩] false Storage.missing "now").1.completed_videos =
      ["G"]) := by
  refine ⟨by decide, by decide, by decide⟩

/-- C4 amended: a persistence failure after a successful extraction is fatal
to that item only — a failure record with the human-readable message
`Save error: ...` is appended, no exception escapes the loop, and the
remaining items of the batch are processed exactly as if the item loop had
started after it — but the identifier is added to neither the Progress
State failed set nor its completed set (the progress state is left
untouched on the item's account). -/
theorem c4_save_failure_isolated (cfg : Config) (hasYt : Bool)
    (env : String → ItemEnv) (v : Video) (vs : List Video) (p : Progress)
    (e : String) (hm : v.video_id ∉ p.completed_videos)
    (hok : extractionOk (extractionOutcome (env v.video_id).fetch
      cfg.max_retries v.video_id) = true)
    (hsave : (env v.video_id).saveResult = .error e) :
    processItems cfg hasYt env (v :: vs) p =
      ((processItems cfg hasYt env vs p).1,
       (processItems cfg hasYt env vs p).2.1,
       ⟨v.video_id, v.title, some ("Save error: " ++ e)⟩ ::
         (processItems cfg hasYt env vs p).2.2.1,
       ((if hasYt then [Ev.metaFetch v.video_id] else []) ++
         (extractionOutcome (env v.video_id).fetch cfg.max_retries v.video_id).2 ++
         [Ev.sleepEv cfg.rate_limit_seconds]) ++
         (processItems cfg hasYt env vs p).2.2.2) := by
  simp only [processItems]
  rw [processItem_saveErr cfg hasYt (env v.video_id) v p e hm hok hsave]
  rfl

/-- Witness for C4 amended: concrete save failure leaving progress
untouched while the failure record is emitted. -/
theorem c4_save_failure_isolated_witness :
    processItems cfg50 false (fun _ => envSaveErr) [⟨"W", "T", ""⟩] ⟨[], [], 0, 0, none⟩ =
      (⟨[], [], 0, 0, none⟩, [],
       [⟨"W", "T", some "Save error: disk full"⟩],
       [Ev.extractAttempt "W" 0, Ev.sleepEv 2]) :=
  c4_save_failure_isolated cfg50 false (fun _ => envSaveErr) ⟨"W", "T", ""⟩ []
    ⟨[], [], 0, 0, none⟩ "disk full" (by decide) (by decide) rfl

/-! ## Event-shape and frame lemmas for the batch loop -/

theorem retryAux_succ_succeed (fetch : Nat → Except String (List Entry))
    (vid : String) (a f : Nat)
    (prev : Option String × Option (List Entry) × Option ExtractMeta)
    (hs : (extract_transcript (fetch a)).2.2.success = true) :
    retryAux fetch vid a (f + 1) prev =
      (((extract_transcript (fetch a)).1, (extract_transcript (fetch a)).2.1,
        some (extract_transcript (fetch a)).2.2), [Ev.extractAttempt vid a]) := by
  cases f with
  | zero => simp [retryAux, hs]
  | succ f2 =>
    simp only [retryAux]
    rw [hs, if_pos rfl]

theorem retryAux_one_fail (fetch : Nat → Except String (List Entry))
    (vid : String) (a : Nat)
    (prev : Option String × Option (List Entry) × Option ExtractMeta)
    (hs : (extract_transcript (fetch a)).2.2.success = false) :
    retryAux fetch vid a 1 prev =
      (((extract_transcript (fetch a)).1, (extract_transcript (fetch a)).2.1,
        some (extract_transcript (fetch a)).2.2), [Ev.extractAttempt vid a]) := by
  simp [retryAux, hs]

theorem retryAux_step_fail (fetch : Nat → Except String (List Entry))
    (vid : String) (a f : Nat)
    (prev : Option String × Option (List Entry) × Option ExtractMeta)
    (hs : (extract_transcript (fetch a)).2.2.success = false) :
    retryAux fetch vid a (f + 2) prev =
      ((retryAux fetch vid (a + 1) (f + 1)
          ((extract_transcript (fetch a)).1, (extract_transcript (fetch a)).2.1,
            some (extract_transcript (fetch a)).2.2)).1,
       Ev.extractAttempt vid a :: Ev.sleepEv (2 ^ a) ::
         (retryAux fetch vid (a + 1) (f + 1)
           ((extract_transcript (fetch a)).1, (extract_transcript (fetch a)).2.1,
             some (extract_transcript (fetch a)).2.2)).2) := by
  simp only [retryAux]
  rw [hs, if_neg (by simp)]

theorem retryAux_head (fetch : Nat → Except String (List Entry))
    (vid : String) (a f : Nat)
    (prev : Option String × Option (List Entry) × Option ExtractMeta) :
    ∃ tl, (retryAux fetch vid a (f + 1) prev).2 = Ev.extractAttempt vid a :: tl := by
  by_cases hs : (extract_transcript (fetch a)).2.2.success = true
  · rw [retryAux_succ_succeed fetch vid a f prev hs]
    exact ⟨[], rfl⟩
  · simp only [Bool.not_eq_true] at hs
    cases f with
    | zero =>
      rw [retryAux_one_fail fetch vid a prev hs]
      exact ⟨[], rfl⟩
    | succ f2 =>
      rw [retryAux_step_fail fetch vid a f2 prev hs]
      exact ⟨_, rfl⟩

theorem retryAux_evs_shape (fetch : Nat → Except String (List Entry))
    (vid : String) :
    ∀ (fuel a : Nat)
      (prev : Option String × Option (List Entry) × Option ExtractMeta)
      (e : Ev), e ∈ (retryAux fetch vid a fuel prev).2 →
      (∃ i, e = Ev.extractAttempt vid i) ∨ ∃ s, e = Ev.sleepEv s := by
  intro fuel
  induction fuel with
  | zero =>
    intro a prev e he
    simp [retryAux] at he
  | succ f ih =>
    intro a prev e he
    by_cases hs : (extract_transcript (fetch a)).2.2.success = true
    · rw [retryAux_succ_succeed fetch vid a f prev hs] at he
      simp at he
      exact Or.inl ⟨a, he⟩
    · simp only [Bool.not_eq_true] at hs
      cases f with
      | zero =>
        rw [retryAux_one_fail fetch vid a prev hs] at he
        simp at he
        exact Or.inl ⟨a, he⟩
      | succ f2 =>
        rw [retryAux_step_fail fetch vid a f2 prev hs] at he
        simp only [List.mem_cons] at he
        rcases he with rfl | rfl | hmem
        · exact Or.inl ⟨a, rfl⟩
        · exact Or.inr ⟨2 ^ a, rfl⟩
        · exact ih (a + 1) _ e hmem

/-- The event list of a non-skipped item is the metadata fetch, the retry
trace, and the rate-limit sleep, in every outcome branch. -/
theorem processItem_evs (cfg : Config) (hasYt : Bool) (ienv : ItemEnv)
    (v : Video) (p : Progress) (hm : v.video_id ∉ p.completed_videos) :
    (processItem cfg hasYt ienv v p).2.2.2 =
      (if hasYt then [Ev.metaFetch v.video_id] else []) ++
        (extractionOutcome ienv.fetch cfg.max_retries v.video_id).2 ++
        [Ev.sleepEv cfg.rate_limit_seconds] := by
  by_cases hok : extractionOk (extractionOutcome ienv.fetch cfg.max_retries v.video_id) = true
  · cases hsave : ienv.saveResult with
    | ok u => rw [processItem_saveOk cfg hasYt ienv v p u hm hok hsave]
    | error e => rw [processItem_saveErr cfg hasYt ienv v p e hm hok hsave]
  · rw [processItem_extractFail cfg hasYt ienv v p hm (by simpa using hok)]

theorem processItem_evs_shape (cfg : Config) (hasYt : Bool) (ienv : ItemEnv)
    (v : Video) (p : Progress) (e : Ev)
    (he : e ∈ (processItem cfg hasYt ienv v p).2.2.2) :
    e = Ev.metaFetch v.video_id ∨ (∃ i, e = Ev.extractAttempt v.video_id i) ∨
      ∃ s, e = Ev.sleepEv s := by
  by_cases hm : v.video_id ∈ p.completed_videos
  · rw [processItem_skip cfg hasYt ienv v p hm] at he
    simp at he
  · rw [processItem_evs cfg hasYt ienv v p hm] at he
    simp only [List.append_assoc, List.mem_append] at he
    rcases he with hA | hB | hC
    · cases hasYt with
      | true => simp at hA; exact Or.inl hA
      | false => simp at hA
    · exact Or.inr (retryAux_evs_shape ienv.fetch v.video_id cfg.max_retries 0 _ e hB)
    · simp at hC
      exact Or.inr (Or.inr ⟨cfg.rate_limit_seconds, hC⟩)

theorem processItem_rec_ids (cfg : Config) (hasYt : Bool) (ienv : ItemEnv)
    (v : Video) (p : Progress) :
    (∀ r ∈ (processItem cfg hasYt ienv v p).2.1, r.video_id = v.video_id) ∧
    (∀ f ∈ (processItem cfg hasYt ienv v p).2.2.1, f.video_id = v.video_id) := by
  by_cases hm : v.video_id ∈ p.completed_videos
  · rw [processItem_skip cfg hasYt ienv v p hm]
    exact ⟨by simp, by simp⟩
  · by_cases hok : extractionOk (extractionOutcome ienv.fetch cfg.max_retries v.video_id) = true
    · cases hsave : ienv.saveResult with
      | ok u =>
        rw [processItem_saveOk cfg hasYt ienv v p u hm hok hsave]
        exact ⟨by simp, by simp⟩
      | error e =>
        rw [processItem_saveErr cfg hasYt ienv v p e hm hok hsave]
        exact ⟨by simp, by simp⟩
    · rw [processItem_extractFail cfg hasYt ienv v p hm (by simpa using hok)]
      exact ⟨by simp, by simp⟩

/-- The progress component of one item step takes one of three shapes:
unchanged (skip or persistence failure), completed-append, or
failed-append. -/
theorem processItem_progress (cfg : Config) (hasYt : Bool) (ienv : ItemEnv)
    (v : Video) (p : Progress) :
    (processItem cfg hasYt ienv v p).1 = p ∨
    (v.video_id ∉ p.completed_videos ∧
      (processItem cfg hasYt ienv v p).1 =
        {p with completed_videos := p.completed_videos ++ [v.video_id],
                total_processed := p.total_processed + 1}) ∨
    (v.video_id ∉ p.completed_videos ∧
      (processItem cfg hasYt ienv v p).1 =
        {p with failed_videos := p.failed_videos ++ [v.video_id]}) := by
  by_cases hm : v.video_id ∈ p.completed_videos
  · exact Or.inl (by rw [processItem_skip cfg hasYt ienv v p hm])
  · by_cases hok : extractionOk (extractionOutcome ienv.fetch cfg.max_retries v.video_id) = true
    · cases hsave : ienv.saveResult with
      | ok u =>
        exact Or.inr (Or.inl ⟨hm, by rw [processItem_saveOk cfg hasYt ienv v p u hm hok hsave]⟩)
      | error e =>
        exact Or.inl (by rw [processItem_saveErr cfg hasYt ienv v p e hm hok hsave])
    · exact Or.inr (Or.inr ⟨hm, by
        rw [processItem_extractFail cfg hasYt ienv v p hm (by simpa using hok)]⟩)

theorem processItem_no_save (cfg : Config) (hasYt : Bool) (ienv : ItemEnv)
    (v : Video) (p : Progress) :
    savedBatchNums (processItem cfg hasYt ienv v p).2.2.2 = [] := by
  rw [savedBatchNums, List.filterMap_eq_nil_iff]
  intro e he
  rcases processItem_evs_shape cfg hasYt ienv v p e he with rfl | ⟨i, rfl⟩ | ⟨s, rfl⟩ <;> rfl

theorem processItem_attempt_ids (cfg : Config) (hasYt : Bool) (ienv : ItemEnv)
    (v : Video) (p : Progress) (x : String)
    (hx : x ∈ attemptedIds (processItem cfg hasYt ienv v p).2.2.2) :
    x = v.video_id := by
  rw [attemptedIds, List.mem_filterMap] at hx
  obtain ⟨e, he, hfe⟩ := hx
  rcases processItem_evs_shape cfg hasYt ienv v p e he with rfl | ⟨i, rfl⟩ | ⟨s, rfl⟩
  · cases hfe
  · simp at hfe
    exact hfe.symm
  · cases hfe

theorem processItem_meta_ids (cfg : Config) (hasYt : Bool) (ienv : ItemEnv)
    (v : Video) (p : Progress) (x : String)
    (hx : x ∈ metaFetchIds (processItem cfg hasYt ienv v p).2.2.2) :
    x = v.video_id := by
  rw [metaFetchIds, List.mem_filterMap] at hx
  obtain ⟨e, he, hfe⟩ := hx
  rcases processItem_evs_shape cfg hasYt ienv v p e he with rfl | ⟨i, rfl⟩ | ⟨s, rfl⟩
  · simp at hfe
    exact hfe.symm
  · cases hfe
  · cases hfe

theorem processItem_completed_mono (cfg : Config) (hasYt : Bool) (ienv : ItemEnv)
    (v : Video) (p : Progress) (id : String) (h : id ∈ p.completed_videos) :
    id ∈ (processItem cfg hasYt ienv v p).1.completed_videos := by
  rcases processItem_progress cfg hasYt ienv v p with h1 | ⟨_, h1⟩ | ⟨_, h1⟩ <;>
    rw [h1] <;> simp [h]

/-- Unfolding of the item fold on a cons cell. -/
theorem processItems_cons (cfg : Config) (hasYt : Bool) (env : String → ItemEnv)
    (v : Video) (vs : List Video) (p : Progress) :
    processItems cfg hasYt env (v :: vs) p =
      ((processItems cfg hasYt env vs (processItem cfg hasYt (env v.video_id) v p).1).1,
       (processItem cfg hasYt (env v.video_id) v p).2.1 ++
         (processItems cfg hasYt env vs (processItem cfg hasYt (env v.video_id) v p).1).2.1,
       (processItem cfg hasYt (env v.video_id) v p).2.2.1 ++
         (processItems cfg hasYt env vs (processItem cfg hasYt (env v.video_id) v p).1).2.2.1,
       (processItem cfg hasYt (env v.video_id) v p).2.2.2 ++
         (processItems cfg hasYt env vs (processItem cfg hasYt (env v.video_id) v p).1).2.2.2) :=
  rfl

theorem processItems_no_save (cfg : Config) (hasYt : Bool) (env : String → ItemEnv) :
    ∀ (vs : List Video) (p : Progress),
      savedBatchNums (processItems cfg hasYt env vs p).2.2.2 = [] := by
  intro vs
  induction vs with
  | nil => intro p; rfl
  | cons v vs ih =>
    intro p
    rw [processItems_cons]
    simp only [savedBatchNums, List.filterMap_append]
    rw [← savedBatchNums, ← savedBatchNums, processItem_no_save, ih]
    rfl

theorem processItems_frame (cfg : Config) (hasYt : Bool) (env : String → ItemEnv) :
    ∀ (vs : List Video) (p : Progress) (id : String),
      id ∈ p.completed_videos →
      id ∉ attemptedIds (processItems cfg hasYt env vs p).2.2.2 ∧
      id ∉ metaFetchIds (processItems cfg hasYt env vs p).2.2.2 := by
  intro vs
  induction vs with
  | nil =>
    intro p id _
    exact ⟨by simp [processItems, attemptedIds], by simp [processItems, metaFetchIds]⟩
  | cons v vs ih =>
    intro p id hid
    rw [processItems_cons]
    simp only [attemptedIds, metaFetchIds, List.filterMap_append, List.mem_append]
    rw [← attemptedIds, ← attemptedIds, ← metaFetchIds, ← metaFetchIds]
    have hm : v.video_id ∉ p.completed_videos → id ≠ v.video_id := by
      intro hvm heq
      exact hvm (heq ▸ hid)
    have hrest := ih (processItem cfg hasYt (env v.video_id) v p).1 id
      (processItem_completed_mono cfg hasYt (env v.video_id) v p id hid)
    constructor
    · rintro (hx | hx)
      · by_cases hvm : v.video_id ∈ p.completed_videos
        · rw [processItem_skip cfg hasYt (env v.video_id) v p hvm] at hx
          simp [attemptedIds] at hx
        · exact hm hvm (processItem_attempt_ids cfg hasYt (env v.video_id) v p id hx)
      · exact hrest.1 hx
    · rintro (hx | hx)
      · by_cases hvm : v.video_id ∈ p.completed_videos
        · rw [processItem_skip cfg hasYt (env v.video_id) v p hvm] at hx
          simp [metaFetchIds] at hx
        · exact hm hvm (processItem_meta_ids cfg hasYt (env v.video_id) v p id hx)
      · exact hrest.2 hx

/-- Per-batch growth of the progress sets: completed and failed only grow,
every appended identifier belongs to the batch, a completed-append only
happens for an identifier not already completed, and (for a batch with
distinct identifiers) no identifier is appended to both sets. -/
theorem processItems_spec (cfg : Config) (hasYt : Bool) (env : String → ItemEnv) :
    ∀ (vs : List Video) (p : Progress),
      ∃ cN fN,
        (processItems cfg hasYt env vs p).1.completed_videos =
          p.completed_videos ++ cN ∧
        (processItems cfg hasYt env vs p).1.failed_videos =
          p.failed_videos ++ fN ∧
        (∀ id ∈ cN, id ∈ vs.map Video.video_id ∧ id ∉ p.completed_videos) ∧
        (∀ id ∈ fN, id ∈ vs.map Video.video_id) ∧
        ((vs.map Video.video_id).Nodup → ∀ id ∈ cN, id ∉ fN) := by
  intro vs
  induction vs with
  | nil =>
    intro p
    exact ⟨[], [], by simp [processItems], by simp [processItems], by simp, by simp,
      fun _ => by simp⟩
  | cons v vs ih =>
    intro p
    obtain ⟨cN, fN, e1, e2, e3, e4, e5⟩ :=
      ih (processItem cfg hasYt (env v.video_id) v p).1
    have hres : (processItems cfg hasYt env (v :: vs) p).1 =
        (processItems cfg hasYt env vs (processItem cfg hasYt (env v.video_id) v p).1).1 := by
      rw [processItems_cons]
    rcases processItem_progress cfg hasYt (env v.video_id) v p with h1 | ⟨hm, h1⟩ | ⟨hm, h1⟩
    · refine ⟨cN, fN, ?_, ?_, ?_, ?_, ?_⟩
      · rw [hres, e1, h1]
      · rw [hres, e2, h1]
      · intro id hid
        have := e3 id hid
        rw [h1] at this
        exact ⟨by simp [this.1], this.2⟩
      · intro id hid
        have := e4 id hid
        simp [this]
      · intro hnd id hid
        exact e5 (by simp at hnd; exact hnd.2) id hid
    · refine ⟨v.video_id :: cN, fN, ?_, ?_, ?_, ?_, ?_⟩
      · rw [hres, e1, h1]
        simp
      · rw [hres, e2, h1]
      · intro id hid
        rcases List.mem_cons.1 hid with rfl | hid2
        · exact ⟨by simp, hm⟩
        · have := e3 id hid2
          rw [h1] at this
          refine ⟨by simp [this.1], fun hc => this.2 (by simp [hc])⟩
      · intro id hid
        have := e4 id hid
        simp [this]
      · intro hnd id hid
        simp only [List.map_cons, List.nodup_cons] at hnd
        rcases List.mem_cons.1 hid with rfl | hid2
        · intro hc
          exact hnd.1 (e4 v.video_id hc)
        · exact e5 hnd.2 id hid2
    · refine ⟨cN, v.video_id :: fN, ?_, ?_, ?_, ?_, ?_⟩
      · rw [hres, e1, h1]
      · rw [hres, e2, h1]
        simp
      · intro id hid
        have := e3 id hid
        rw [h1] at this
        exact ⟨by simp [this.1], this.2⟩
      · intro id hid
        rcases List.mem_cons.1 hid with rfl | hid2
        · simp
        · have := e4 id hid2
          simp [this]
      · intro hnd id hid
        simp only [List.map_cons, List.nodup_cons] at hnd
        have h3 := e3 id hid
        rw [h1] at h3
        intro hc
        rcases List.mem_cons.1 hc with rfl | hc2
        · exact hnd.1 h3.1
        · exact e5 hnd.2 id hid hc2

/-! ## Batch-loop invariants -/

theorem runBatches_cons_skip (cfg : Config) (hasYt : Bool) (env : String → ItemEnv)
    (total : Nat) (bn : Nat) (vs : List Video) (rest : List (Nat × List Video))
    (p : Progress) (hle : bn ≤ p.last_batch) :
    runBatches cfg hasYt env true total ((bn, vs) :: rest) p =
      runBatches cfg hasYt env true total rest p := by
  simp only [runBatches]
  rw [if_pos (by exact ⟨by trivial, hle⟩)]

theorem runBatches_cons_go (cfg : Config) (hasYt : Bool) (env : String → ItemEnv)
    (resume : Bool) (total : Nat) (bn : Nat) (vs : List Video)
    (rest : List (Nat × List Video)) (p : Progress)
    (h : ¬(resume = true ∧ bn ≤ p.last_batch)) :
    runBatches cfg hasYt env resume total ((bn, vs) :: rest) p =
      ((runBatches cfg hasYt env resume total rest
          (process_video_batch cfg hasYt env vs bn p).1).1,
       (process_video_batch cfg hasYt env vs bn p).2.1 ++
         (runBatches cfg hasYt env resume total rest
           (process_video_batch cfg hasYt env vs bn p).1).2.1,
       (process_video_batch cfg hasYt env vs bn p).2.2.1 ++
         (runBatches cfg hasYt env resume total rest
           (process_video_batch cfg hasYt env vs bn p).1).2.2.1,
       (process_video_batch cfg hasYt env vs bn p).2.2.2 ++
         (if bn < total then [Ev.sleepEv 5] else []) ++
         (runBatches cfg hasYt env resume total rest
           (process_video_batch cfg hasYt env vs bn p).1).2.2.2) := by
  simp only [runBatches]
  rw [if_neg h]

/-- The saved batch numbers of a resumed batch loop are strictly increasing
and all exceed the entry progress state's last-batch index. -/
theorem runBatches_saved (cfg : Config) (hasYt : Bool) (env : String → ItemEnv)
    (total : Nat) :
    ∀ (l : List (Nat × List Video)) (p : Progress),
      (∀ bn ∈ savedBatchNums
          (runBatches cfg hasYt env true total l p).2.2.2, p.last_batch < bn) ∧
      List.Chain' (· < ·)
        (savedBatchNums (runBatches cfg hasYt env true total l p).2.2.2) := by
  intro l
  induction l with
  | nil =>
    intro p
    exact ⟨by simp [runBatches, savedBatchNums], by simp [runBatches, savedBatchNums]⟩
  | cons x rest ih =>
    intro p
    obtain ⟨bn, vs⟩ := x
    by_cases hle : bn ≤ p.last_batch
    · rw [runBatches_cons_skip cfg hasYt env total bn vs rest p hle]
      exact ih p
    · rw [runBatches_cons_go cfg hasYt env true total bn vs rest p
        (fun hc => hle hc.2)]
      have hbatch : savedBatchNums (process_video_batch cfg hasYt env vs bn p).2.2.2 =
          [bn] := by
        simp only [process_video_batch, savedBatchNums, List.filterMap_append]
        rw [← savedBatchNums, processItems_no_save]
        rfl
      have hinter : savedBatchNums (if bn < total then [Ev.sleepEv 5] else []) = [] := by
        by_cases hb : bn < total
        · rw [if_pos hb]; rfl
        · rw [if_neg hb]; rfl
      have hlast : (process_video_batch cfg hasYt env vs bn p).1.last_batch = bn := rfl
      have hrest := ih (process_video_batch cfg hasYt env vs bn p).1
      rw [hlast] at hrest
      simp only [savedBatchNums, List.filterMap_append]
      rw [← savedBatchNums, ← savedBatchNums, ← savedBatchNums, hbatch, hinter]
      have hlt : p.last_batch < bn := by omega
      constructor
      · intro b hb
        simp only [List.append_nil, List.singleton_append, List.mem_cons] at hb
        rcases hb with rfl | hb2
        · exact hlt
        · exact lt_trans hlt (hrest.1 b hb2)
      · simp only [List.append_nil, List.singleton_append]
        rw [List.chain'_cons']
        refine ⟨?_, hrest.2⟩
        intro y hy
        exact hrest.1 y (List.mem_of_mem_head? hy)

/-- Identifiers already in the completed set on entry are never the subject
of an extraction attempt or metadata fetch anywhere in the batch loop. -/
theorem runBatches_frame (cfg : Config) (hasYt : Bool) (env : String → ItemEnv)
    (resume : Bool) (total : Nat) :
    ∀ (l : List (Nat × List Video)) (p : Progress) (id : String),
      id ∈ p.completed_videos →
      id ∉ attemptedIds (runBatches cfg hasYt env resume total l p).2.2.2 ∧
      id ∉ metaFetchIds (runBatches cfg hasYt env resume total l p).2.2.2 := by
  intro l
  induction l with
  | nil =>
    intro p id _
    exact ⟨by simp [runBatches, attemptedIds], by simp [runBatches, metaFetchIds]⟩
  | cons x rest ih =>
    intro p id hid
    obtain ⟨bn, vs⟩ := x
    by_cases hskip : resume = true ∧ bn ≤ p.last_batch
    · have : runBatches cfg hasYt env resume total ((bn, vs) :: rest) p =
          runBatches cfg hasYt env resume total rest p := by
        rcases hskip with ⟨h1, h2⟩
        subst h1
        exact runBatches_cons_skip cfg hasYt env total bn vs rest p h2
      rw [this]
      exact ih p id hid
    · rw [runBatches_cons_go cfg hasYt env resume total bn vs rest p hskip]
      obtain ⟨cN, fN, e1, _, _, _, _⟩ := processItems_spec cfg hasYt env vs p
      have hmono : id ∈ (process_video_batch cfg hasYt env vs bn p).1.completed_videos := by
        have : (process_video_batch cfg hasYt env vs bn p).1.completed_videos =
            (processItems cfg hasYt env vs p).1.completed_videos := rfl
        rw [this, e1]
        exact List.mem_append_left _ hid
      have hrest := ih (process_video_batch cfg hasYt env vs bn p).1 id hmono
      have hbatchA : id ∉ attemptedIds (process_video_batch cfg hasYt env vs bn p).2.2.2 := by
        have hb : (process_video_batch cfg hasYt env vs bn p).2.2.2 =
            (processItems cfg hasYt env vs p).2.2.2 ++
              [Ev.saveProgressEv (process_video_batch cfg hasYt env vs bn p).1] := rfl
        rw [hb]
        simp only [attemptedIds, List.filterMap_append, List.mem_append]
        rw [← attemptedIds, ← attemptedIds]
        rintro (hx | hx)
        · exact (processItems_frame cfg hasYt env vs p id hid).1 hx
        · simp [attemptedIds] at hx
      have hbatchM : id ∉ metaFetchIds (process_video_batch cfg hasYt env vs bn p).2.2.2 := by
        have hb : (process_video_batch cfg hasYt env vs bn p).2.2.2 =
            (processItems cfg hasYt env vs p).2.2.2 ++
              [Ev.saveProgressEv (process_video_batch cfg hasYt env vs bn p).1] := rfl
        rw [hb]
        simp only [metaFetchIds, List.filterMap_append, List.mem_append]
        rw [← metaFetchIds, ← metaFetchIds]
        rintro (hx | hx)
        · exact (processItems_frame cfg hasYt env vs p id hid).2 hx
        · simp [metaFetchIds] at hx
      have hinterA : attemptedIds (if bn < total then [Ev.sleepEv 5] else []) = [] := by
        by_cases hb : bn < total
        · rw [if_pos hb]; rfl
        · rw [if_neg hb]; rfl
      have hinterM : metaFetchIds (if bn < total then [Ev.sleepEv 5] else []) = [] := by
        by_cases hb : bn < total
        · rw [if_pos hb]; rfl
        · rw [if_neg hb]; rfl
      constructor
      · simp only [attemptedIds, List.filterMap_append, List.mem_append]
        rw [← attemptedIds, ← attemptedIds, ← attemptedIds, hinterA]
        rintro ((hx | hx) | hx)
        · exact hbatchA hx
        · simp at hx
        · exact hrest.1 hx
      · simp only [metaFetchIds, List.filterMap_append, List.mem_append]
        rw [← metaFetchIds, ← metaFetchIds, ← metaFetchIds, hinterM]
        rintro ((hx | hx) | hx)
        · exact hbatchM hx
        · simp at hx
        · exact hrest.2 hx

/-- Identifiers carried by a numbered batch list. -/
def batchIds (l : List (Nat × List Video)) : List String :=
  (l.map Prod.snd).flatten.map Video.video_id

theorem batchIds_cons (bn : Nat) (vs : List Video) (rest : List (Nat × List Video)) :
    batchIds ((bn, vs) :: rest) = vs.map Video.video_id ++ batchIds rest := by
  simp [batchIds]

/-- Whole-loop growth of the progress sets, with the same guarantees as
`processItems_spec`, relative to the identifiers of all batches. -/
theorem runBatches_spec (cfg : Config) (hasYt : Bool) (env : String → ItemEnv)
    (resume : Bool) (total : Nat) :
    ∀ (l : List (Nat × List Video)) (p : Progress),
      ∃ cN fN,
        (runBatches cfg hasYt env resume total l p).1.completed_videos =
          p.completed_videos ++ cN ∧
        (runBatches cfg hasYt env resume total l p).1.failed_videos =
          p.failed_videos ++ fN ∧
        (∀ id ∈ cN, id ∈ batchIds l ∧ id ∉ p.completed_videos) ∧
        (∀ id ∈ fN, id ∈ batchIds l) ∧
        ((batchIds l).Nodup → ∀ id ∈ cN, id ∉ fN) := by
  intro l
  induction l with
  | nil =>
    intro p
    exact ⟨[], [], by simp [runBatches], by simp [runBatches], by simp, by simp,
      fun _ => by simp⟩
  | cons x rest ih =>
    intro p
    obtain ⟨bn, vs⟩ := x
    by_cases hskip : resume = true ∧ bn ≤ p.last_batch
    · have heq : runBatches cfg hasYt env resume total ((bn, vs) :: rest) p =
          runBatches cfg hasYt env resume total rest p := by
        rcases hskip with ⟨h1, h2⟩
        subst h1
        exact runBatches_cons_skip cfg hasYt env total bn vs rest p h2
      obtain ⟨cN, fN, e1, e2, e3, e4, e5⟩ := ih p
      refine ⟨cN, fN, ?_, ?_, ?_, ?_, ?_⟩
      · rw [heq, e1]
      · rw [heq, e2]
      · intro id hid
        have := e3 id hid
        exact ⟨by rw [batchIds_cons]; exact List.mem_append_right _ this.1, this.2⟩
      · intro id hid
        rw [batchIds_cons]
        exact List.mem_append_right _ (e4 id hid)
      · intro hnd
        rw [batchIds_cons, List.nodup_append] at hnd
        exact e5 hnd.2.1
    · rw [runBatches_cons_go cfg hasYt env resume total bn vs rest p hskip]
      obtain ⟨cNb, fNb, b1, b2, b3, b4, b5⟩ := processItems_spec cfg hasYt env vs p
      have hq1 : (process_video_batch cfg hasYt env vs bn p).1.completed_videos =
          p.completed_videos ++ cNb := b1
      have hq2 : (process_video_batch cfg hasYt env vs bn p).1.failed_videos =
          p.failed_videos ++ fNb := b2
      obtain ⟨cNr, fNr, r1, r2, r3, r4, r5⟩ :=
        ih (process_video_batch cfg hasYt env vs bn p).1
      refine ⟨cNb ++ cNr, fNb ++ fNr, ?_, ?_, ?_, ?_, ?_⟩
      · rw [r1, hq1, List.append_assoc]
      · rw [r2, hq2, List.append_assoc]
      · intro id hid
        rcases List.mem_append.1 hid with hb | hr
        · have := b3 id hb
          exact ⟨by rw [batchIds_cons]; exact List.mem_append_left _ this.1, this.2⟩
        · have := r3 id hr
          have hin : id ∈ batchIds rest := this.1
          have hnotin : id ∉ p.completed_videos := by
            intro hc
            exact this.2 (by rw [hq1]; exact List.mem_append_left _ hc)
          exact ⟨by rw [batchIds_cons]; exact List.mem_append_right _ hin, hnotin⟩
      · intro id hid
        rw [batchIds_cons]
        rcases List.mem_append.1 hid with hb | hr
        · exact List.mem_append_left _ (b4 id hb)
        · exact List.mem_append_right _ (r4 id hr)
      · intro hnd id hid
        rw [batchIds_cons, List.nodup_append] at hnd
        obtain ⟨hnd1, hnd2, hdisj⟩ := hnd
        intro hc
        rcases List.mem_append.1 hid with hb | hr
        · rcases List.mem_append.1 hc with hfb | hfr
          · exact b5 hnd1 id hb hfb
          · exact hdisj (b3 id hb).1 (r4 id hfr)
        · rcases List.mem_append.1 hc with hfb | hfr
          · exact hdisj (b4 id hfb) (r3 id hr).1
          · exact r5 hnd2 id hr hfr

theorem batchesAux_flatten (bs : Nat) (hbs : 0 < bs) :
    ∀ (fuel : Nat) (l : List Video), l.length ≤ fuel →
      (batchesAux bs fuel l).flatten = l := by
  intro fuel
  induction fuel with
  | zero =>
    intro l hl
    cases l with
    | nil => rfl
    | cons v t => simp at hl
  | succ f ih =>
    intro l hl
    cases l with
    | nil => rfl
    | cons v t =>
      have hstep : batchesAux bs (f + 1) (v :: t) =
          ((v :: t).take bs) :: batchesAux bs f ((v :: t).drop bs) := rfl
      rw [hstep, List.flatten_cons]
      rw [ih ((v :: t).drop bs) (by simp at hl ⊢; omega)]
      exact List.take_append_drop bs (v :: t)

theorem flatten_batchesOf (bs : Nat) (l : List Video) (hbs : 0 < bs) :
    (batchesOf bs l).flatten = l := by
  unfold batchesOf
  rw [if_neg (by omega)]
  exact batchesAux_flatten bs hbs l.length l le_rfl

theorem numberFrom_snd : ∀ (k : Nat) (bl : List (List Video)),
    (numberFrom k bl).map Prod.snd = bl := by
  intro k bl
  induction bl generalizing k with
  | nil => rfl
  | cons b rest ih => simp [numberFrom, ih]

theorem batchIds_numberFrom (k : Nat) (bl : List (List Video)) :
    batchIds (numberFrom k bl) = bl.flatten.map Video.video_id := by
  rw [batchIds, numberFrom_snd]

theorem batchesOf_singleton (bs : Nat) (hbs : 0 < bs) (v : Video) :
    batchesOf bs [v] = [[v]] := by
  unfold batchesOf
  rw [if_neg (by omega)]
  have h1 : [v].take bs = [v] := List.take_of_length_le (by simp; omega)
  have h2 : [v].drop bs = [] := List.drop_eq_nil_of_le (by simp; omega)
  have hstep : batchesAux bs 1 [v] = ([v].take bs) :: batchesAux bs 0 ([v].drop bs) := rfl
  rw [show [v].length = 1 from rfl, hstep, h1, h2]
  rfl

/-! ## Claim C2: batch-boundary resume semantics -/

/-- C2 counterexample: batch size 2, universe {X, Y, Z}; the prior run
completed batch 1 = {X, Y}, durably saved `last_batch = 1`, and crashed
before batch 2 = {Z}.  The resumed run loads that state and terminates
processing nothing at all: the completed-set filter leaves `[Z]`, whose
re-partition makes Z batch number 1, and `1 ≤ last_batch` skips it — so the
run does not begin with batch 2 (item Z is never extracted), refuting the
claim that resuming "skips every item of batch 1 entirely and begins with
batch 2". -/
theorem c2_counterexample :
    run_extraction cfg2 false envOk
      [⟨"X", "t1", ""⟩, ⟨"Y", "t2", ""⟩, ⟨"Z", "t3", ""⟩] true
      (.good ⟨["X", "Y"], [], 1, 2, some "t0"⟩) "now" =
    (⟨["X", "Y"], [], 1, 2, some "t0"⟩, [], [], []) := by
  decide

/-- C2 amended: in a resumed run, the durably saved batch numbers are
strictly increasing (batches are opened in increasing order and never
re-opened) and every opened batch's number strictly exceeds the loaded
last-completed-batch index — but batch numbers refer to the partition of
the *filtered* remaining list of the current run, not the partition of the
prior run, so after a crash following the save of batch 1 of 2 the resumed
run skips the first batch of the new partition, which can contain items of
the old batch 2; every item of the old batch 1 that completed is still
never reprocessed (no extraction attempt and no metadata fetch for any
identifier of the loaded completed set). -/
theorem c2_batch_resume (cfg : Config) (hasYt : Bool) (env : String → ItemEnv)
    (videos : List Video) (st : Storage) (now : String) :
    List.Chain' (· < ·)
      (savedBatchNums (run_extraction cfg hasYt env videos true st now).2.2.2) ∧
    (∀ bn ∈ savedBatchNums (run_extraction cfg hasYt env videos true st now).2.2.2,
      (initProgress true st now).last_batch < bn) ∧
    (∀ id ∈ (initProgress true st now).completed_videos,
      id ∉ attemptedIds (run_extraction cfg hasYt env videos true st now).2.2.2 ∧
      id ∉ metaFetchIds (run_extraction cfg hasYt env videos true st now).2.2.2) := by
  simp only [run_extraction]
  split
  · refine ⟨by simp [savedBatchNums], by simp [savedBatchNums], ?_⟩
    intro id _
    exact ⟨by simp [attemptedIds], by simp [metaFetchIds]⟩
  · split
    · split
      · refine ⟨by simp [savedBatchNums], by simp [savedBatchNums], ?_⟩
        intro id _
        exact ⟨by simp [attemptedIds], by simp [metaFetchIds]⟩
      · exact ⟨(runBatches_saved cfg hasYt env _ _ _).2,
          fun bn hbn => (runBatches_saved cfg hasYt env _ _ _).1 bn hbn,
          fun id hid => runBatches_frame cfg hasYt env true _ _ _ id hid⟩
    · exact ⟨(runBatches_saved cfg hasYt env _ _ _).2,
        fun bn hbn => (runBatches_saved cfg hasYt env _ _ _).1 bn hbn,
        fun id hid => runBatches_frame cfg hasYt env true _ _ _ id hid⟩

/-! ## Claim C5: end-of-run set disjointness -/

/-- Every run either processes nothing or reduces to the batch loop over a
remaining list that is a sublist of the enumerated videos none of whose
identifiers is in the loaded completed set. -/
theorem run_extraction_shape (cfg : Config) (hasYt : Bool)
    (env : String → ItemEnv) (videos : List Video) (resume : Bool)
    (st : Storage) (now : String) :
    run_extraction cfg hasYt env videos resume st now =
      (initProgress resume st now, [], [], []) ∨
    ∃ remaining : List Video,
      remaining.Sublist videos ∧
      (∀ v ∈ remaining, v.video_id ∉ (initProgress resume st now).completed_videos) ∧
      run_extraction cfg hasYt env videos resume st now =
        runBatches cfg hasYt env resume
          ((remaining.length + cfg.batch_size - 1) / cfg.batch_size)
          (numberFrom 1 (batchesOf cfg.batch_size remaining))
          (initProgress resume st now) := by
  by_cases h1 : videos = []
  · left
    simp only [run_extraction]
    rw [if_pos h1]
  · by_cases h2 : resume = true ∧ (initProgress resume st now).completed_videos ≠ []
    · by_cases h3 : videos.filter
          (fun v => decide (v.video_id ∉ (initProgress resume st now).completed_videos)) = []
      · left
        simp only [run_extraction]
        rw [if_neg h1, if_pos h2, if_pos h3]
      · right
        refine ⟨videos.filter
          (fun v => decide (v.video_id ∉ (initProgress resume st now).completed_videos)),
          List.filter_sublist videos, ?_, ?_⟩
        · intro v hv
          rw [List.mem_filter] at hv
          simpa using hv.2
        · simp only [run_extraction]
          rw [if_neg h1, if_pos h2, if_neg h3]
    · have hcomp : (initProgress resume st now).completed_videos = [] := by
        cases resume with
        | false => rfl
        | true =>
          have hne : ¬((initProgress true st now).completed_videos ≠ []) :=
            fun hne => h2 ⟨rfl, hne⟩
          exact not_not.1 hne
      right
      refine ⟨videos, List.Sublist.refl videos, ?_, ?_⟩
      · intro v _
        simp [hcomp]
      · simp only [run_extraction]
        rw [if_neg h1, if_neg h2, if_neg h1]

/-- C5 counterexample: the stored state carries "B" in the failed set from
a prior run; the later run processes "B" successfully and appends it to the
completed set, but never removes it from the failed set, so at the end of
the run "B" sits in both sets — the sets are not disjoint and the
identifier is not "moved out" of the failed set. -/
theorem c5_counterexample :
    ("B" : String) ∈ (run_extraction cfg50 false envOk [⟨"B", "lecture 5", ""⟩] true
      (.good ⟨[], ["B"], 0, 0, some "t0"⟩) "now").1.completed_videos ∧
    ("B" : String) ∈ (run_extraction cfg50 false envOk [⟨"B", "lecture 5", ""⟩] true
      (.good ⟨[], ["B"], 0, 0, some "t0"⟩) "now").1.failed_videos := by
  refine ⟨by decide, by decide⟩

/-- C5 amended: identifiers are never removed from the failed set, so the
completed and failed sets need not be disjoint at the end of a run; what
holds is that any identifier in both final sets was already in the failed
set when the run started (a single run with distinct item identifiers never
adds an identifier to both sets), and the final failed set extends the
loaded one. -/
theorem c5_sets_overlap_only_loaded (cfg : Config) (hasYt : Bool)
    (env : String → ItemEnv) (videos : List Video) (resume : Bool)
    (st : Storage) (now : String)
    (hnd : (videos.map Video.video_id).Nodup) (hbs : 0 < cfg.batch_size) :
    (∀ id, id ∈ (run_extraction cfg hasYt env videos resume st now).1.completed_videos →
      id ∈ (run_extraction cfg hasYt env videos resume st now).1.failed_videos →
      id ∈ (initProgress resume st now).failed_videos) ∧
    ∃ l, (run_extraction cfg hasYt env videos resume st now).1.failed_videos =
      (initProgress resume st now).failed_videos ++ l := by
  rcases run_extraction_shape cfg hasYt env videos resume st now with
    heq | ⟨R, hsub, hnotin, heq⟩
  · rw [heq]
    exact ⟨fun id _ h2 => h2, ⟨[], by simp⟩⟩
  · rw [heq]
    obtain ⟨cN, fN, e1, e2, e3, e4, e5⟩ := runBatches_spec cfg hasYt env resume
      ((R.length + cfg.batch_size - 1) / cfg.batch_size)
      (numberFrom 1 (batchesOf cfg.batch_size R)) (initProgress resume st now)
    have hbids : batchIds (numberFrom 1 (batchesOf cfg.batch_size R)) =
        R.map Video.video_id := by
      rw [batchIds_numberFrom, flatten_batchesOf _ _ hbs]
    rw [hbids] at e3 e4 e5
    have hndR : (R.map Video.video_id).Nodup :=
      List.Nodup.sublist (hsub.map Video.video_id) hnd
    constructor
    · intro id h1 h2
      rw [e1] at h1
      rw [e2] at h2
      rcases List.mem_append.1 h2 with h2a | h2b
      · exact h2a
      · have hidR : id ∈ R.map Video.video_id := e4 id h2b
        rcases List.mem_append.1 h1 with h1a | h1b
        · obtain ⟨v, hv, rfl⟩ := List.mem_map.1 hidR
          exact absurd h1a (hnotin v hv)
        · exact absurd h2b (e5 hndR id h1b)
    · exact ⟨fN, e2⟩

/-- Witness for C5 amended at the concrete overlap run: "B" in both final
sets implies "B" was in the loaded failed set. -/
theorem c5_sets_overlap_only_loaded_witness :
    ("B" : String) ∈ (initProgress true
      (.good ⟨[], ["B"], 0, 0, some "t0"⟩) "now").failed_videos :=
  (c5_sets_overlap_only_loaded cfg50 false envOk [⟨"B", "lecture 5", ""⟩] true
      (.good ⟨[], ["B"], 0, 0, some "t0"⟩) "now" (by decide) (by decide)).1
    "B" (by decide) (by decide)

/-! ## Claim C1: resume idempotence over the universe {A, B, C} -/

/-- Concrete three-item universe of the resume-idempotence scenario. -/
def vidA : Video := ⟨"A", "Berachos 2 Daf Yomi", ""⟩

def vidB : Video := ⟨"B", "Berachos 3 Daf Yomi", ""⟩

def vidC : Video := ⟨"C", "Berachos 4 Daf Yomi", ""⟩

/-- C1 counterexample: a loaded Progress State with completed set {A, B}
and last-completed-batch index 1 — exactly what any crashed prior run that
completed A and B durably saves, since progress is only written at batch
boundaries with batch numbers starting at 1.  Resuming over {A, B, C}
processes nothing at all: the remaining list [C] re-partitions into batch
number 1, which is skipped because 1 ≤ last_batch; the run output is the
loaded state with empty records and an empty event trace, so C is not
processed — refuting "processes exactly item C". -/
theorem c1_counterexample :
    run_extraction cfg50 false envOk [vidA, vidB, vidC] true
      (.good ⟨["A", "B"], [], 1, 2, some "t0"⟩) "now" =
    (⟨["A", "B"], [], 1, 2, some "t0"⟩, [], [], []) := by
  decide

/-- C1 amended: when the loaded Progress State has completed set {A, B} and
last-completed-batch index 0, a resumed run over the universe {A, B, C}
processes exactly C: item C enters the state machine (its attempt 0 is in
the trace), and every extraction attempt, metadata fetch, result record and
failure record of the run concerns C alone — A and B are filtered out
before batching, never re-enter the state machine, and acquire no new
records.  (With last-batch index ≥ 1, as any organic crash state has, the
run processes nothing; see the counterexample.) -/
theorem c1_resume_only_c (cfg : Config) (hasYt : Bool) (env : String → ItemEnv)
    (fl : List String) (tp : Nat) (st0 now : String)
    (hbs : 0 < cfg.batch_size) (hmr : 0 < cfg.max_retries) :
    Ev.extractAttempt "C" 0 ∈
      (run_extraction cfg hasYt env [vidA, vidB, vidC] true
        (.good ⟨["A", "B"], fl, 0, tp, some st0⟩) now).2.2.2 ∧
    (∀ x ∈ attemptedIds (run_extraction cfg hasYt env [vidA, vidB, vidC] true
        (.good ⟨["A", "B"], fl, 0, tp, some st0⟩) now).2.2.2, x = "C") ∧
    (∀ x ∈ metaFetchIds (run_extraction cfg hasYt env [vidA, vidB, vidC] true
        (.good ⟨["A", "B"], fl, 0, tp, some st0⟩) now).2.2.2, x = "C") ∧
    (∀ r ∈ (run_extraction cfg hasYt env [vidA, vidB, vidC] true
        (.good ⟨["A", "B"], fl, 0, tp, some st0⟩) now).2.1, r.video_id = "C") ∧
    (∀ f ∈ (run_extraction cfg hasYt env [vidA, vidB, vidC] true
        (.good ⟨["A", "B"], fl, 0, tp, some st0⟩) now).2.2.1, f.video_id = "C") := by
  have hrem : run_extraction cfg hasYt env [vidA, vidB, vidC] true
      (.good ⟨["A", "B"], fl, 0, tp, some st0⟩) now =
      runBatches cfg hasYt env true ((1 + cfg.batch_size - 1) / cfg.batch_size)
        (numberFrom 1 (batchesOf cfg.batch_size [vidC]))
        ⟨["A", "B"], fl, 0, tp, some st0⟩ := rfl
  have h3 : batchesOf cfg.batch_size [vidC] = [[vidC]] :=
    batchesOf_singleton cfg.batch_size hbs vidC
  have h4 : (1 + cfg.batch_size - 1) / cfg.batch_size = 1 := by
    rw [show 1 + cfg.batch_size - 1 = cfg.batch_size by omega, Nat.div_self hbs]
  have hrb : runBatches cfg hasYt env true 1 [(1, [vidC])]
      ⟨["A", "B"], fl, 0, tp, some st0⟩ =
      ((process_video_batch cfg hasYt env [vidC] 1 ⟨["A", "B"], fl, 0, tp, some st0⟩).1,
       (process_video_batch cfg hasYt env [vidC] 1 ⟨["A", "B"], fl, 0, tp, some st0⟩).2.1,
       (process_video_batch cfg hasYt env [vidC] 1 ⟨["A", "B"], fl, 0, tp, some st0⟩).2.2.1,
       (process_video_batch cfg hasYt env [vidC] 1 ⟨["A", "B"], fl, 0, tp, some st0⟩).2.2.2) := by
    rw [runBatches_cons_go cfg hasYt env true 1 1 [vidC] []
      ⟨["A", "B"], fl, 0, tp, some st0⟩ (by simp)]
    simp [runBatches]
  have hpv : process_video_batch cfg hasYt env [vidC] 1 ⟨["A", "B"], fl, 0, tp, some st0⟩ =
      ({(processItem cfg hasYt (env "C") vidC ⟨["A", "B"], fl, 0, tp, some st0⟩).1
          with last_batch := 1},
       (processItem cfg hasYt (env "C") vidC ⟨["A", "B"], fl, 0, tp, some st0⟩).2.1,
       (processItem cfg hasYt (env "C") vidC ⟨["A", "B"], fl, 0, tp, some st0⟩).2.2.1,
       (processItem cfg hasYt (env "C") vidC ⟨["A", "B"], fl, 0, tp, some st0⟩).2.2.2 ++
         [Ev.saveProgressEv {(processItem cfg hasYt (env "C") vidC
            ⟨["A", "B"], fl, 0, tp, some st0⟩).1 with last_batch := 1}]) := by
    simp [process_video_batch, processItems, vidC]
  have hall : run_extraction cfg hasYt env [vidA, vidB, vidC] true
      (.good ⟨["A", "B"], fl, 0, tp, some st0⟩) now =
      ({(processItem cfg hasYt (env "C") vidC ⟨["A", "B"], fl, 0, tp, some st0⟩).1
          with last_batch := 1},
       (processItem cfg hasYt (env "C") vidC ⟨["A", "B"], fl, 0, tp, some st0⟩).2.1,
       (processItem cfg hasYt (env "C") vidC ⟨["A", "B"], fl, 0, tp, some st0⟩).2.2.1,
       (processItem cfg hasYt (env "C") vidC ⟨["A", "B"], fl, 0, tp, some st0⟩).2.2.2 ++
         [Ev.saveProgressEv {(processItem cfg hasYt (env "C") vidC
            ⟨["A", "B"], fl, 0, tp, some st0⟩).1 with last_batch := 1}]) := by
    rw [hrem, h3, h4, show numberFrom 1 [[vidC]] = [(1, [vidC])] from rfl, hrb, hpv]
  have hmC : vidC.video_id ∉ (Progress.mk ["A", "B"] fl 0 tp (some st0)).completed_videos := by
    simp [vidC]
  rw [hall]
  obtain ⟨k, hk⟩ : ∃ k, cfg.max_retries = k + 1 := ⟨cfg.max_retries - 1, by omega⟩
  refine ⟨?_, ?_, ?_, ?_, ?_⟩
  · apply List.mem_append_left
    rw [processItem_evs cfg hasYt (env "C") vidC _ hmC]
    apply List.mem_append_left
    apply List.mem_append_right
    obtain ⟨tl, htl⟩ := retryAux_head (env "C").fetch vidC.video_id 0 k (none, none, none)
    rw [extractionOutcome, hk, htl]
    simp [vidC]
  · intro x hx
    simp only [attemptedIds, List.filterMap_append, List.mem_append] at hx
    rw [← attemptedIds, ← attemptedIds] at hx
    rcases hx with hx | hx
    · exact processItem_attempt_ids cfg hasYt (env "C") vidC _ x hx
    · simp [attemptedIds] at hx
  · intro x hx
    simp only [metaFetchIds, List.filterMap_append, List.mem_append] at hx
    rw [← metaFetchIds, ← metaFetchIds] at hx
    rcases hx with hx | hx
    · exact processItem_meta_ids cfg hasYt (env "C") vidC _ x hx
    · simp [metaFetchIds] at hx
  · intro r hr
    exact (processItem_rec_ids cfg hasYt (env "C") vidC _).1 r hr
  · intro f hf
    exact (processItem_rec_ids cfg hasYt (env "C") vidC _).2 f hf

/-- Witness for C1 amended: with the default configuration and the
always-succeeding environment, item C is attempted on the resumed run. -/
theorem c1_resume_only_c_witness :
    Ev.extractAttempt "C" 0 ∈
      (run_extraction cfg50 false envOk [vidA, vidB, vidC] true
        (.good ⟨["A", "B"], [], 0, 0, some "t0"⟩) "now").2.2.2 :=
  (c1_resume_only_c cfg50 false envOk [] 0 "t0" "now" (by decide) (by decide)).1

/-- Witness for C2 amended: in a concrete fresh resumed run whose trace
saves batch 1, the loaded last-batch index 0 is strictly below it, and the
loaded completed set (empty here, with a sanity id check on a nonempty
loaded set) yields no attempts. -/
theorem c2_batch_resume_witness :
    (initProgress true Storage.missing "now").last_batch < 1 ∧
    ("A" ∉ attemptedIds (run_extraction cfg2 false envOk [⟨"A", "t", ""⟩, ⟨"D", "u", ""⟩] true
        (.good ⟨["A"], [], 0, 1, some "t0"⟩) "now").2.2.2 ∧
     "A" ∉ metaFetchIds (run_extraction cfg2 false envOk [⟨"A", "t", ""⟩, ⟨"D", "u", ""⟩] true
        (.good ⟨["A"], [], 0, 1, some "t0"⟩) "now").2.2.2) :=
  ⟨(c2_batch_resume cfg2 false envOk [⟨"A", "t", ""⟩] Storage.missing "now").2.1 1
      (by decide),
   (c2_batch_resume cfg2 false envOk [⟨"A", "t", ""⟩, ⟨"D", "u", ""⟩]
      (.good ⟨["A"], [], 0, 1, some "t0"⟩) "now").2.2 "A" (by decide)⟩
